import Mathlib

/-!
Verification development for the sitemap extraction / quality-scan / bulk
import-export backend (`src/backend/index.js`, with the earlier variant kept in
`src/unnamed/part_014`).

The JavaScript backend is shallowly embedded: network fetches and URL-origin
parsing are modelled as explicit oracles (`World`, a page oracle
`String → Option PageData`, `originOf`), the Mongo collections as Lean lists
with the unique-`url`-index semantics of `insertMany {ordered:false}` made
explicit, and each HTTP handler as a pure function from its inputs and the
store to its response and the updated store.  JavaScript numbers that can be
`NaN` are modelled as `Option` (`none` = `NaN`); decimal values use `ℚ`.
-/

namespace SitemapManager

/- ### JavaScript string / number primitives

Models of the standard-library operations the backend uses:
`String.prototype.trim`, `String.prototype.includes`, `parseFloat`,
`parseInt` (applied after stripping non-digits), and byte-wise string
comparison (Mongo's `{url: 1}` sort key order). -/

/-- Model of `s.trim()`: drop whitespace from both ends. -/
def jsTrim (s : String) : String :=
  ⟨((s.toList.dropWhile Char.isWhitespace).reverse.dropWhile Char.isWhitespace).reverse⟩

/-- Is `pat` a contiguous sublist of the second argument?  Underlies
`String.prototype.includes`. -/
def isInfixB (pat : List Char) : List Char → Bool
  | [] => pat.isEmpty
  | c :: rest => pat.isPrefixOf (c :: rest) || isInfixB pat rest

/-- Model of `s.includes(pat)`. -/
def jsIncludes (s pat : String) : Bool := isInfixB pat.toList s.toList

/-- Numeric value of a digit string (most significant first). -/
def digitsToNat (ds : List Char) : Nat := ds.foldl (fun n c => 10 * n + (c.toNat - 48)) 0

/-- Consume an optional `+`/`-` sign, returning the sign and the rest. -/
def signSplit : List Char → Int × List Char
  | '+' :: cs => (1, cs)
  | '-' :: cs => (-1, cs)
  | cs => (1, cs)

/-- Exponent suffix of a JS float literal (after the `e`/`E`): an optional sign
and digits; an empty digit run contributes exponent 0 (as in `parseFloat`,
which stops before an incomplete exponent). -/
def expPart (cs : List Char) : Int :=
  let (sg, cs1) := signSplit cs
  let ds := cs1.takeWhile Char.isDigit
  if ds.isEmpty then 0 else sg * (digitsToNat ds : Int)

/-- Model of JavaScript `parseFloat` on an already-trimmed string: parse the
longest numeric prefix `[+-]? digits [. digits]? ([eE][+-]?digits)?`; `none`
models `NaN` (no digits at all).  (The special `Infinity` literal is outside
the model; exact binary floating point is replaced by `ℚ`.) -/
def jsParseFloat (s : String) : Option ℚ :=
  let (sg, cs1) := signSplit s.toList
  let ip := cs1.takeWhile Char.isDigit
  let cs2 := cs1.dropWhile Char.isDigit
  let (fp, cs3) :=
    match cs2 with
    | '.' :: rest => (rest.takeWhile Char.isDigit, rest.dropWhile Char.isDigit)
    | _ => (([] : List Char), cs2)
  if ip.isEmpty && fp.isEmpty then none
  else
    let mant : ℚ := (digitsToNat ip : ℚ) + (digitsToNat fp : ℚ) / (10 : ℚ) ^ fp.length
    let ex : Int :=
      match cs3 with
      | 'e' :: rest => expPart rest
      | 'E' :: rest => expPart rest
      | _ => 0
    some ((sg : ℚ) * mant * (10 : ℚ) ^ ex)

/-- Model of `parseInt(ds, 10)` applied to a digit-only string (the backend
first strips every non-digit with `.replace(/[^0-9]/g, '')`); `none` models
`NaN` (empty digit string). -/
def jsParseIntDigits (ds : List Char) : Option Nat :=
  if ds.isEmpty then none else some (digitsToNat ds)

/-- Byte-wise (code-point) order on char lists, the sort key order Mongo uses
for `.sort({url: 1})`. -/
def charListLe : List Char → List Char → Bool
  | [], _ => true
  | _ :: _, [] => false
  | a :: as, b :: bs => if a = b then charListLe as bs else decide (a.toNat < b.toNat)

/-- String order for the catalog sort. -/
def strLe (a b : String) : Bool := charListLe a.toList b.toList

/- ### The quality scanner (`checkUrlQuality`)

The page fetch plus cheerio selector extraction is modelled by an oracle
`String → Option PageData`: `none` when `fetchContent` throws (network error,
timeout, non-2xx, gunzip failure), otherwise the text content of the first
element matching each of the two fixed selectors (`""` when the element is
missing, as cheerio's `.text()` returns for an empty selection). -/

structure PageData where
  ratingText : String
  reviewText : String
deriving DecidableEq

/-- Result shape of the `part_014` (v1) `checkUrlQuality`: `{valid, rating,
reviews}`.  `rating`/`reviews` are JS numbers that may be `NaN` (`none`). -/
structure QualityOutcome where
  valid : Bool
  rating : Option ℚ
  reviews : Option Nat
deriving DecidableEq

/-- `checkUrlQuality` of `src/unnamed/part_014` (v1): parse the rating with
`parseFloat` and the review count with `parseInt` after stripping non-digits;
`valid` iff neither is `NaN` and `rating >= 4.0 && reviews >= 50`.  The catch
branch (fetch failure) returns `{valid: false, rating: 0, reviews: 0}`. -/
def checkUrlQualityRated (qp : String → Option PageData) (url : String) : QualityOutcome :=
  match qp url with
  | none => ⟨false, some 0, some 0⟩
  | some page =>
    let ratingText := jsTrim page.ratingText
    let reviewText := jsTrim page.reviewText
    let rating := jsParseFloat ratingText
    let reviews := jsParseIntDigits (reviewText.toList.filter Char.isDigit)
    let valid :=
      match rating, reviews with
      | some r, some n => decide ((4 : ℚ) ≤ r) && decide (50 ≤ n)
      | _, _ => false
    ⟨valid, rating, reviews⟩

/-- `checkUrlQuality` of `src/backend/index.js`: same computation, returning
only the boolean; the catch branch returns `false`. -/
def checkUrlQuality (qp : String → Option PageData) (url : String) : Bool :=
  match qp url with
  | none => false
  | some page =>
    let ratingText := jsTrim page.ratingText
    let reviewText := jsTrim page.reviewText
    let rating := jsParseFloat ratingText
    let reviews := jsParseIntDigits (reviewText.toList.filter Char.isDigit)
    match rating, reviews with
    | some r, some n => decide ((4 : ℚ) ≤ r) && decide (50 ≤ n)
    | _, _ => false

/- ### The sitemap resolver (`extractUrlsAndSitemaps`)

A fetched-and-parsed sitemap document is either a sitemap index
(`result.sitemapindex.sitemap`, a list of entries whose `loc?.[0]` may be
absent), a url set (`result.urlset.url`), or neither.  The network and XML
parser are modelled by a `World`: an association list from sitemap URL to
document; a URL missing from it models a fetch or parse failure (caught and
swallowed by the function). -/

inductive SitemapDoc where
  | index (entries : List (Option String))
  | urlset (entries : List (Option String))
  | other
deriving DecidableEq

structure World where
  docs : List (String × SitemapDoc)
deriving DecidableEq

/-- `fetchContent` + `parseStringPromise` under the `try`: the document served
for `u`, or `none` when fetching/parsing fails. -/
def World.fetchParse (w : World) (u : String) : Option SitemapDoc := w.docs.lookup u

/-- The resolver's shared mutable accumulators (`extractedUrlMap`,
`extractedSitemapsSet`), plus `trace`, a ghost field recording every
invocation of `extractUrlsAndSitemaps` (i.e. every fetch of a sitemap file),
in order, used to state the visit-at-most-once and first-parent-wins
properties. -/
structure ResolveState where
  urlMap : List (String × String)
  sitemapSet : List String
  trace : List String
deriving DecidableEq

/-- The url-set branch: `for (urlEntry of result.urlset.url) { const loc =
urlEntry.loc?.[0]; if (loc && !extractedUrlMap.has(loc))
extractedUrlMap.set(loc, sitemapUrl); }`. -/
def addLocs (m : List (String × String)) (parent : String) : List (Option String) → List (String × String)
  | [] => m
  | e :: rest =>
    match e with
    | some loc =>
      if loc = "" then addLocs m parent rest
      else if (m.lookup loc).isSome then addLocs m parent rest
      else addLocs (m ++ [(loc, parent)]) parent rest
    | none => addLocs m parent rest

/-- The sitemap-index branch: for each entry with a truthy `loc` not already in
the visited set, insert it into the set and recurse (`step`). -/
def resolveChildren (step : String → ResolveState → ResolveState) :
    List (Option String) → ResolveState → ResolveState
  | [], st => st
  | e :: rest, st =>
    let st' : ResolveState :=
      match e with
      | some c =>
        if c = "" then st
        else if c ∈ st.sitemapSet then st
        else step c ⟨st.urlMap, st.sitemapSet ++ [c], st.trace⟩
      | none => st
    resolveChildren step rest st'

/-- `extractUrlsAndSitemaps(sitemapUrl, urlMap, sitemapSet)`: fetch and parse
the document, then either recurse over index children or record url-set locs.
The JS recursion carries no fuel; `fuel` is an artifact of the embedding, and
`resolveStep_stabilizes` below shows any `fuel ≥ resolveBound w` gives the same
(fuel-free) result, which is the termination argument. -/
def resolveStep (w : World) : Nat → String → ResolveState → ResolveState
  | 0, _, st => st
  | Nat.succ fuel, u, st =>
    let st1 : ResolveState := ⟨st.urlMap, st.sitemapSet, st.trace ++ [u]⟩
    match w.fetchParse u with
    | some (SitemapDoc.index entries) => resolveChildren (resolveStep w fuel) entries st1
    | some (SitemapDoc.urlset entries) => ⟨addLocs st1.urlMap u entries, st1.sitemapSet, st1.trace⟩
    | some SitemapDoc.other => st1
    | none => st1

/-- The truthy `loc` values of an index document's entries; candidates for
insertion into the visited set. -/
def docChildren : SitemapDoc → List String
  | SitemapDoc.index entries => (entries.filterMap id).filter (fun c => decide (c ≠ ""))
  | _ => []

/-- Every child sitemap URL any document of the world can contribute. -/
def childUrls (w : World) : List String := (w.docs.map (fun p => docChildren p.2)).flatten

/-- Fuel sufficient for any resolution over `w` (one more than the number of
child-URL occurrences in the world). -/
def resolveBound (w : World) : Nat := (childUrls w).length + 1

/-- The accumulators as seeded by the `/api/extract-sitemap` handler:
`allFoundSitemaps.add(sitemapUrl)` before resolving. -/
def initState (root : String) : ResolveState := ⟨[], [root], []⟩

/-- A full resolution pass as run by the handler. -/
def resolveRoot (w : World) (root : String) : ResolveState :=
  resolveStep w (resolveBound w) root (initState root)

/-- Does resolving `s` against `w` yield a url set containing `u` as a truthy
`loc`?  (The sitemaps whose documents can write `u` into the url map.) -/
def docHasLoc (w : World) (s u : String) : Bool :=
  match w.fetchParse s with
  | some (SitemapDoc.urlset entries) => decide (u ≠ "") && decide (some u ∈ entries)
  | _ => false

/- ### The import pipeline (`POST /api/extract-sitemap`, `src/backend/index.js`) -/

structure UrlRecord where
  url : String
  sourceDomain : String
  parentSitemap : Option String
  copied : Bool
deriving DecidableEq

structure SitemapRecord where
  url : String
  sourceDomain : String
deriving DecidableEq

/-- The two Mongo collections (`SitemapUrl`, `SitemapFile`), in insertion
order.  A unique index on `url` is enforced by the duplicate-tolerant
`insertManyBy` below. -/
structure Db where
  urls : List UrlRecord
  sitemaps : List SitemapRecord
deriving DecidableEq

/-- `Model.insertMany(batch, {ordered: false})` under a unique index on
`key`: every document whose key is not yet present is appended; duplicate-key
failures (code 11000) are tolerated and the count of actually inserted
documents (`insertResult.length` resp. `bulkError.result.nInserted`) is
returned. -/
def insertManyBy (key : α → String) (db : List α) : List α → List α × Nat
  | [] => (db, 0)
  | r :: rest =>
    if (db.map key).contains (key r) then insertManyBy key db rest
    else
      let res := insertManyBy key (db ++ [r]) rest
      (res.1, res.2 + 1)

/-- One document of a duplicate-tolerant bulk insert, carried with the
running count of successful insertions (`insertManyBy` as a left fold). -/
def insStep (key : α → String) (acc : List α × Nat) (r : α) : List α × Nat :=
  if (acc.1.map key).contains (key r) then acc else (acc.1 ++ [r], acc.2 + 1)

/-- The candidate outcome of the per-URL filter closure (`'keep' |
'pattern_skipped' | 'quality_skipped'`). -/
inductive CandStatus where
  | keep
  | patternSkipped
  | qualitySkipped
deriving DecidableEq

/-- The pattern-filter guard `filterPattern && filterPattern.trim() !== '' &&
!uniqueUrl.includes(filterPattern)`; `none` models an absent body field and
`some ""` the falsy empty string. -/
def patternRejects (filterPattern : Option String) (url : String) : Bool :=
  match filterPattern with
  | none => false
  | some p => decide (p ≠ "") && decide (jsTrim p ≠ "") && !(jsIncludes url p)

/-- Instrumentation for the filter closure's control flow: `checkUrlQuality`
is awaited for a candidate iff the pattern guard did not already return and
`enableQualityFilter` is set. -/
def qualityInvoked (filterPattern : Option String) (enableQualityFilter : Bool) (url : String) : Bool :=
  !(patternRejects filterPattern url) && enableQualityFilter

/-- The per-candidate filter closure of the batch loop. -/
def classify (qp : String → Option PageData) (filterPattern : Option String)
    (enableQualityFilter : Bool) (url : String) : CandStatus :=
  if patternRejects filterPattern url then CandStatus.patternSkipped
  else if enableQualityFilter && !(checkUrlQuality qp url) then CandStatus.qualitySkipped
  else CandStatus.keep

/-- Structural worker for `chunksOf`; the fuel only serves the termination
argument and any `fuel ≥ l.length` gives the same result
(`chunksOfAux_fuel_irrel`). -/
def chunksOfAux (n : Nat) : Nat → List α → List (List α)
  | _, [] => []
  | 0, _ :: _ => []
  | Nat.succ fuel, x :: xs =>
    if n = 0 then []
    else (x :: xs).take n :: chunksOfAux n fuel ((x :: xs).drop n)

/-- `candidates.slice(i, i + n)` chunking of the batch loop
(`for (let i = 0; i < candidates.length; i += BATCH_SIZE)`). -/
def chunksOf (n : Nat) (l : List α) : List (List α) := chunksOfAux n l.length l

/-- The record pushed for a kept candidate: `{url, sourceDomain,
parentSitemap: allFoundUrlMap.get(url), copied: false}`. -/
def mkUrlRecord (origin : String) (urlMap : List (String × String)) (u : String) : UrlRecord :=
  ⟨u, origin, urlMap.lookup u, false⟩

/-- The `for (const res of results)` accumulation: push kept records, bump the
matching skip counter.  Accumulator: (newUrlsToStore, patternSkippedCount,
qualitySkippedCount). -/
def accumResult (origin : String) (urlMap : List (String × String))
    (acc : List UrlRecord × Nat × Nat) (r : CandStatus × String) : List UrlRecord × Nat × Nat :=
  match r.1 with
  | CandStatus.keep => (acc.1 ++ [mkUrlRecord origin urlMap r.2], acc.2.1, acc.2.2)
  | CandStatus.patternSkipped => (acc.1, acc.2.1 + 1, acc.2.2)
  | CandStatus.qualitySkipped => (acc.1, acc.2.1, acc.2.2 + 1)

/-- The per-candidate step of the accumulation, with the filter closure
applied: the composition the batch loop computes for each candidate. -/
def accumStep (origin : String) (m : List (String × String)) (qp : String → Option PageData)
    (fp : Option String) (eqf : Bool) (acc : List UrlRecord × Nat × Nat) (u : String) :
    List UrlRecord × Nat × Nat :=
  accumResult origin m acc (classify qp fp eqf u, u)

/-- The batched filter loop (`BATCH_SIZE = 10`): each batch is mapped through
the filter closure (the `Promise.all` fan-out — pure per candidate, so batch
order is preserved) and its results folded into the accumulator. -/
def processCandidates (qp : String → Option PageData) (filterPattern : Option String)
    (enableQualityFilter : Bool) (origin : String) (urlMap : List (String × String))
    (candidates : List String) : List UrlRecord × Nat × Nat :=
  (chunksOf 10 candidates).foldl
    (fun acc batch =>
      (batch.map (fun u => (classify qp filterPattern enableQualityFilter u, u))).foldl
        (accumResult origin urlMap) acc)
    ([], 0, 0)

structure ImportReport where
  newUrlsStored : Nat
  newSitemapsStored : Nat
  totalUrlsFound : Nat
  skipped : Nat
  patternSkipped : Nat
  qualitySkipped : Nat
deriving DecidableEq

inductive ImportResult where
  | badRequest (msg : String)
  | notFound
  | ok (report : ImportReport)
deriving DecidableEq

/-- The keys of the resolved url map (`Array.from(allFoundUrlMap.keys())`). -/
def urlMapKeys (m : List (String × String)) : List String := m.map Prod.fst

/-- `POST /api/extract-sitemap` of `src/backend/index.js`.  `originOf` models
`new URL(u).origin` (`none` when the constructor throws); `sitemapUrl = none`
models an absent body field and `some ""` the falsy empty string.  Returns the
response and the updated store. -/
def importSitemap (w : World) (qp : String → Option PageData)
    (originOf : String → Option String) (sitemapUrl : Option String)
    (filterPattern : Option String) (enableQualityFilter : Bool) (db : Db) :
    ImportResult × Db :=
  match sitemapUrl with
  | none => (ImportResult.badRequest "Sitemap URL is required", db)
  | some u =>
    if u = "" then (ImportResult.badRequest "Sitemap URL is required", db)
    else
      match originOf u with
      | none => (ImportResult.badRequest "Invalid URL provided", db)
      | some websiteDomain =>
        let st := resolveRoot w u
        if st.urlMap.length = 0 ∧ st.sitemapSet.length = 0 then
          (ImportResult.notFound, db)
        else
          let res := processCandidates qp filterPattern enableQualityFilter websiteDomain
            st.urlMap (urlMapKeys st.urlMap)
          let ins := insertManyBy (fun r => r.url) db.urls res.1
          let smRecs := st.sitemapSet.map (fun su => SitemapRecord.mk su websiteDomain)
          let insS := insertManyBy (fun r => r.url) db.sitemaps smRecs
          (ImportResult.ok ⟨ins.2, insS.2, st.urlMap.length, res.2.1 + res.2.2, res.2.1, res.2.2⟩,
            ⟨ins.1, insS.1⟩)

/- ### The catalog query (`GET /api/urls`) -/

/-- Lower-casing used by the `i` regex option. -/
def lowerChar (c : Char) : Char := c.toLower

/-- One pattern character against one text character, `i` option: `.` matches
anything, otherwise case-insensitive literal match.  This models the
metacharacter-free-except-`.` fragment of the PCRE patterns Mongo's `$regex`
accepts (the backend passes the user's search string through unescaped). -/
def rxCharMatch (pc tc : Char) : Bool := pc = '.' || decide (lowerChar pc = lowerChar tc)

/-- Match the whole pattern at the head of the text. -/
def rxMatchHere : List Char → List Char → Bool
  | [], _ => true
  | _ :: _, [] => false
  | pc :: ps, tc :: ts => rxCharMatch pc tc && rxMatchHere ps ts

/-- Unanchored regex search (Mongo `$regex` is a search, not a full match). -/
def rxSearch (p : List Char) : List Char → Bool
  | [] => rxMatchHere p []
  | t :: ts => rxMatchHere p (t :: ts) || rxSearch p ts

/-- `{ $regex: pat, $options: 'i' }` on a string field. -/
def mongoRegexTest (pat text : String) : Bool := rxSearch pat.toList text.toList

/-- Case-insensitive substring containment (what the spec says the search
filter does). -/
def ciSubstring (pat text : String) : Bool :=
  isInfixB (pat.toList.map lowerChar) (text.toList.map lowerChar)

/-- The PCRE metacharacters: backslash ^ $ . | ? * + ( ) [ ] and the two
curly brackets, by code point. -/
def regexMetaChars : List Char :=
  [92, 94, 36, 46, 124, 63, 42, 43, 40, 41, 91, 93, 123, 125].map Char.ofNat

/-- A search string free of every regex metacharacter. -/
def plainPattern (pat : String) : Bool :=
  pat.toList.all (fun c => !(regexMetaChars.contains c))

/-- A query-string field under JS truthiness: an absent (`none`) or empty
parameter imposes no constraint. -/
def optStrTest (o : Option String) (f : String → Bool) : Bool :=
  match o with
  | none => true
  | some s => if s = "" then true else f s

/-- The Mongo query built by `GET /api/urls`: optional `sourceDomain` and
`parentSitemap` equality, the `pending`/`copied` status mapping, and the
case-insensitive `$regex` search on `url`. -/
def urlsQueryPred (domain parentSitemap status search : Option String) (r : UrlRecord) : Bool :=
  optStrTest domain (fun d => decide (r.sourceDomain = d)) &&
  optStrTest parentSitemap (fun p => decide (r.parentSitemap = some p)) &&
  (if status = some "pending" then !r.copied
   else if status = some "copied" then r.copied
   else true) &&
  optStrTest search (fun s => mongoRegexTest s r.url)

/-- Insert into a url-sorted list (model of the store's `{url: 1}` sort). -/
def insertByUrl (r : UrlRecord) : List UrlRecord → List UrlRecord
  | [] => [r]
  | x :: xs => if strLe r.url x.url then r :: x :: xs else x :: insertByUrl r xs

/-- Sort records by `url` (insertion sort; only the multiset and the
membership matter for the claims below). -/
def sortByUrl : List UrlRecord → List UrlRecord
  | [] => []
  | x :: xs => insertByUrl x (sortByUrl xs)

structure UrlsPage where
  data : List UrlRecord
  total : Nat
  page : Nat
  limit : Nat
  totalUrls : Nat
  pending : Nat
  copied : Nat
deriving DecidableEq

/-- `GET /api/urls`: count the filtered records, compute whole-corpus stats,
and return the sorted, paginated slice. -/
def listUrls (db : Db) (domain parentSitemap status search : Option String)
    (page limit : Nat) : UrlsPage :=
  let q := db.urls.filter (urlsQueryPred domain parentSitemap status search)
  let totalDb := db.urls.length
  let pendingDb := (db.urls.filter (fun r => !r.copied)).length
  let data := ((sortByUrl q).drop ((page - 1) * limit)).take limit
  ⟨data, q.length, page, limit, totalDb, pendingDb, totalDb - pendingDb⟩

/- ### Backup and restore (`GET /api/backup`, `POST /api/restore`)

The export endpoint streams `{"sitemaps":[...],"urls":[...]}` with a cursor
walk; the restore endpoint re-parses that document (`JSONStream.parse
('sitemaps.*')`, then `'urls.*'`) and batch-inserts with duplicate tolerance,
stripping `_id`.  The byte-level JSON serialization round-trips through the
library; the model works with the parsed document. -/

structure BackupDoc where
  sitemaps : List SitemapRecord
  urls : List UrlRecord
deriving DecidableEq

/-- `GET /api/backup`: both collections, in store order. -/
def exportBackup (db : Db) : BackupDoc := ⟨db.sitemaps, db.urls⟩

/-- The restore phase loop: drain a stream into fixed-size batches, feeding
each to `handleInsert` (duplicate-tolerant insert) and summing the counts. -/
def chunkInsertBy (key : α → String) (chunkSize : Nat) (db : List α) (l : List α) :
    List α × Nat :=
  (chunksOf chunkSize l).foldl
    (fun acc batch =>
      let r := insertManyBy key acc.1 batch
      (r.1, acc.2 + r.2))
    (db, 0)

/-- `POST /api/restore`: optionally wipe, then phase 1 (sitemaps, batches of
500) and phase 2 (urls, batches of 10000).  Returns the store and the
`{sitemaps, urls}` counts. -/
def importBackup (b : BackupDoc) (clearBefore : Bool) (db : Db) : Db × Nat × Nat :=
  let db0 := if clearBefore then Db.mk [] [] else db
  let sm := chunkInsertBy (fun r => r.url) 500 db0.sitemaps b.sitemaps
  let us := chunkInsertBy (fun r => r.url) 10000 db0.urls b.urls
  (⟨us.1, sm.1⟩, sm.2, us.2)

/- ### The deferred-scan variant (`src/unnamed/part_014`, v1)

This earlier module version stores a `qualityStatus` enum plus `rating` and
`reviews` on each record.  A record field that is absent from the document is
the outer `none`; the inner option is the JS number that may be `NaN`. -/

inductive QStatus where
  | unchecked
  | approved
  | rejected
deriving DecidableEq

structure QRec where
  url : String
  sourceDomain : String
  copied : Bool
  qualityStatus : QStatus
  rating : Option (Option ℚ)
  reviews : Option (Option Nat)
deriving DecidableEq

/-- The v1 extract loop (`for (const uniqueUrl of allFoundUrls)`), threading
the accumulated `newUrlsToStore` and `patternSkippedCount`. -/
def buildRecordsV1Aux (domain : String) (filterPattern : Option String) :
    List String → List QRec × Nat → List QRec × Nat
  | [], acc => acc
  | u :: rest, acc =>
    if patternRejects filterPattern u then
      buildRecordsV1Aux domain filterPattern rest (acc.1, acc.2 + 1)
    else
      buildRecordsV1Aux domain filterPattern rest
        (acc.1 ++ [⟨u, domain, false, QStatus.unchecked, none, none⟩], acc.2)

/-- The v1 extract loop body: pattern-filter each resolved URL and build
`{url, sourceDomain, copied: false, qualityStatus: 'unchecked'}` (no
`rating`/`reviews` fields).  Returns (newUrlsToStore, patternSkippedCount). -/
def buildRecordsV1 (domain : String) (filterPattern : Option String) (urls : List String) :
    List QRec × Nat :=
  buildRecordsV1Aux domain filterPattern urls ([], 0)

/-- The v1 `POST /api/extract-sitemap` store phase: build the records from the
resolved URL set, then `insertMany {ordered: false}`.  Returns (store,
newUrlsStoredCount, patternSkippedCount). -/
def extractStoreV1 (domain : String) (filterPattern : Option String)
    (allFoundUrls : List String) (db : List QRec) : List QRec × Nat × Nat :=
  let built := buildRecordsV1 domain filterPattern allFoundUrls
  let ins := insertManyBy (fun r => r.url) db built.1
  (ins.1, ins.2, built.2)

structure ScanReport where
  processed : Nat
  approved : Nat
  rejected : Nat
  remaining : Nat
deriving DecidableEq

/-- `POST /api/scan-quality-batch`: select up to `limit` `unchecked` records,
run `checkUrlQuality` over them, and bulk-update each to
`approved`/`rejected`, writing `qualityStatus`, `rating` and `reviews` in one
`$set`.  The updated documents are addressed by `_id`; under the unique `url`
index this is keyed here by `url`.  The early return for an empty selection
reports zero processed and zero remaining. -/
def scanQualityBatch (qp : String → Option PageData) (limit : Nat) (db : List QRec) :
    List QRec × ScanReport :=
  let toScan := (db.filter (fun r => decide (r.qualityStatus = QStatus.unchecked))).take limit
  if toScan.isEmpty then (db, ⟨0, 0, 0, 0⟩)
  else
    let results := toScan.map (fun r => (r.url, checkUrlQualityRated qp r.url))
    let db' := db.map (fun r =>
      match results.lookup r.url with
      | some out =>
        { r with
          qualityStatus := if out.valid then QStatus.approved else QStatus.rejected
          rating := some out.rating
          reviews := some out.reviews }
      | none => r)
    let approvedN := (results.filter (fun p => p.2.valid)).length
    let rejectedN := (results.filter (fun p => !p.2.valid)).length
    let remaining := (db'.filter (fun r => decide (r.qualityStatus = QStatus.unchecked))).length
    (db', ⟨toScan.length, approvedN, rejectedN, remaining⟩)

/-- The selector of the v1 `POST /api/mark-copied` body: an explicit URL list,
or "all pending matching these filters". -/
inductive CopySelector where
  | byUrls (urls : List String)
  | allPending (domain : Option String) (search : Option String)

/-- v1 `POST /api/mark-copied`: set `copied` on the selected records (the
`allPending` query is `{copied: false, qualityStatus: 'approved'}` plus the
optional domain and regex-search constraints). -/
def markCopiedV1 (sel : CopySelector) (db : List QRec) : List QRec :=
  match sel with
  | CopySelector.allPending domain search =>
    db.map (fun r =>
      if !r.copied && decide (r.qualityStatus = QStatus.approved)
          && optStrTest domain (fun d => decide (r.sourceDomain = d))
          && optStrTest search (fun s => mongoRegexTest s r.url)
      then { r with copied := true } else r)
  | CopySelector.byUrls urls =>
    db.map (fun r => if urls.contains r.url then { r with copied := true } else r)

/-- v1 `POST /api/clear-database`: `deleteMany({})`. -/
def clearDatabaseV1 : List QRec := []

/-- The record invariant of the v1 data model: a record past `unchecked`
carries `rating` and `reviews` values (possibly `NaN`/zero sentinels). -/
def QInv (db : List QRec) : Prop :=
  ∀ r ∈ db, r.qualityStatus ≠ QStatus.unchecked → r.rating.isSome ∧ r.reviews.isSome

/- ### Proof-side measures and abbreviations -/

/-- Number of child-URL occurrences of the world not yet in the visited set:
the termination measure of the resolver. -/
def unvisited (w : World) (st : ResolveState) : Nat :=
  ((childUrls w).filter (fun c => decide (c ∉ st.sitemapSet))).length

/-- The url map always holds, for each URL, the parent recorded by the first
sitemap in resolution (trace) order whose url-set document lists it. -/
def mapTraceInv (w : World) (st : ResolveState) : Prop :=
  ∀ v, st.urlMap.lookup v = st.trace.find? (fun s => docHasLoc w s v)

/-- The records the pipeline keeps for insertion, as a function of the inputs
only (the store plays no part in filtering). -/
def keepRecords (w : World) (qp : String → Option PageData) (fp : Option String)
    (eqf : Bool) (origin u : String) : List UrlRecord :=
  (processCandidates qp fp eqf origin (resolveRoot w u).urlMap
    (urlMapKeys (resolveRoot w u).urlMap)).1

/-- The candidate URLs of an import from root `u`. -/
def importCandidates (w : World) (u : String) : List String :=
  urlMapKeys (resolveRoot w u).urlMap

/- ### Concrete instances used by the witnesses -/

/-- A page oracle where every fetch fails. -/
def qpNone : String → Option PageData := fun _ => none

/-- An origin oracle accepting every URL. -/
def origFun : String → Option String := fun _ => some "https://example.com"

def dbEmpty : Db := ⟨[], []⟩

/-- A root URL for the witness worlds. -/
def rootUrl : String := "https://example.com/sitemap.xml"

/-- A sitemap tree with a cycle: the root index lists itself, and `a` lists
the root, itself, and the leaf `b`. -/
def wCyclic : World :=
  ⟨[(rootUrl, SitemapDoc.index [some rootUrl, some "https://example.com/a.xml"]),
    ("https://example.com/a.xml",
      SitemapDoc.index [some rootUrl, some "https://example.com/a.xml", some "https://example.com/b.xml"]),
    ("https://example.com/b.xml",
      SitemapDoc.urlset [some "https://example.com/u1", some "https://example.com/u2"])]⟩

/-- A two-URL url set at the root. -/
def wTwo : World :=
  ⟨[(rootUrl, SitemapDoc.urlset [some "https://example.com/a", some "https://example.com/b"])]⟩

/-- A url set with two `/recipe/` pages and one other page. -/
def wRecipes : World :=
  ⟨[(rootUrl, SitemapDoc.urlset
    [some "https://example.com/recipe/x", some "https://example.com/other",
      some "https://example.com/recipe/y"])]⟩

def c7db : Db :=
  ⟨[⟨"https://example.com/a", "https://example.com", some rootUrl, false⟩,
    ⟨"https://example.com/b", "https://example.com", some rootUrl, true⟩],
    [⟨rootUrl, "https://example.com"⟩]⟩

def c8rec : UrlRecord := ⟨"abc", "https://example.com", none, false⟩

def c8db : Db := ⟨[c8rec], []⟩

def c8dbW : Db :=
  ⟨[⟨"https://example.com/recipe/x", "https://example.com", none, false⟩,
    ⟨"https://example.com/other", "https://example.com", none, true⟩], []⟩

def c9db : List QRec :=
  [⟨"https://example.com/a", "https://example.com", false, QStatus.unchecked, none, none⟩,
    ⟨"https://example.com/b", "https://example.com", false, QStatus.approved, some (some 0), some (some 0)⟩]

end SitemapManager

/-!
## Lemmas and claim theorems

General list facts first, then the resolver, the quality scanner, the import
pipeline, the catalog query, backup/restore, and the v1 quality-status system.
-/

namespace SitemapManager

theorem lookup_mem {β : Type _} :
    ∀ (l : List (String × β)) (k : String) (v : β), l.lookup k = some v → (k, v) ∈ l := by
  intro l
  induction l with
  | nil => intro k v h; simp [List.lookup] at h
  | cons p rest ih =>
    intro k v h
    obtain ⟨a, b⟩ := p
    simp only [List.lookup] at h
    cases hab : k == a with
    | false => rw [hab] at h; exact List.mem_cons_of_mem _ (ih k v h)
    | true =>
      rw [hab] at h
      cases h
      have : k = a := by simpa using hab
      subst this
      exact List.mem_cons_self _ _

theorem length_filter_le_filter {α : Type _} (p q : α → Bool)
    (h : ∀ a, p a = true → q a = true) :
    ∀ l : List α, (l.filter p).length ≤ (l.filter q).length := by
  intro l
  induction l with
  | nil => simp
  | cons a l ih =>
    simp only [List.filter_cons]
    cases hp : p a
    · cases hq : q a
      · simpa using ih
      · simp only [List.length_cons]
        exact Nat.le_succ_of_le ih
    · rw [h a hp]
      simp only [List.length_cons]
      exact Nat.succ_le_succ ih

theorem length_filter_lt_filter {α : Type _} (p q : α → Bool)
    (h : ∀ a, p a = true → q a = true) (a : α) (hpa : p a = false) (hqa : q a = true) :
    ∀ l : List α, a ∈ l → (l.filter p).length < (l.filter q).length := by
  intro l
  induction l with
  | nil => intro h'; cases h'
  | cons b l ih =>
    intro hmem
    simp only [List.filter_cons]
    rcases List.mem_cons.mp hmem with rfl | hmem'
    · rw [hpa, hqa]
      simp only [List.length_cons]
      exact Nat.lt_succ_of_le (length_filter_le_filter p q h l)
    · cases hp : p b
      · cases hq : q b
        · simpa using ih hmem'
        · simp only [List.length_cons]
          exact Nat.lt_succ_of_lt (ih hmem')
      · rw [h b hp]
        simp only [List.length_cons]
        exact Nat.succ_lt_succ (ih hmem')

/- ### Resolver: measure facts -/

theorem unvisited_mono (w : World) {s₁ s₂ : ResolveState}
    (h : s₁.sitemapSet ⊆ s₂.sitemapSet) : unvisited w s₂ ≤ unvisited w s₁ := by
  refine length_filter_le_filter _ _ ?_ _
  intro a ha
  simp only [decide_eq_true_eq] at ha ⊢
  exact fun hc => ha (h hc)

theorem unvisited_insert_lt (w : World) (st : ResolveState) (c : String)
    (hcu : c ∈ childUrls w) (hc : c ∉ st.sitemapSet) :
    unvisited w ⟨st.urlMap, st.sitemapSet ++ [c], st.trace⟩ < unvisited w st := by
  refine length_filter_lt_filter _ _ ?_ c ?_ ?_ _ hcu
  · intro a ha
    simp only [decide_eq_true_eq, List.mem_append] at ha ⊢
    exact fun hmem => ha (Or.inl hmem)
  · simp only [decide_eq_false_iff_not, Decidable.not_not, List.mem_append]
    exact Or.inr (List.mem_singleton_self c)
  · simpa using hc

theorem unvisited_lt_resolveBound (w : World) (st : ResolveState) :
    unvisited w st < resolveBound w :=
  Nat.lt_succ_of_le (List.length_filter_le _ _)

theorem mem_childUrls (w : World) (u : String) (entries : List (Option String))
    (hfp : w.fetchParse u = some (SitemapDoc.index entries)) (c : String)
    (hce : some c ∈ entries) (hne : c ≠ "") : c ∈ childUrls w := by
  have hmem : (u, SitemapDoc.index entries) ∈ w.docs := lookup_mem _ _ _ hfp
  have h1 : c ∈ docChildren (SitemapDoc.index entries) := by
    simp only [docChildren, List.mem_filter, List.mem_filterMap, decide_eq_true_eq]
    exact ⟨⟨some c, hce, rfl⟩, hne⟩
  simp only [childUrls, List.mem_flatten]
  exact ⟨docChildren (SitemapDoc.index entries),
    List.mem_map_of_mem (fun p => docChildren p.2) hmem, h1⟩

/- ### Resolver: the visited set only grows -/

theorem resolveChildren_set_mono (step : String → ResolveState → ResolveState)
    (hstep : ∀ c s, s.sitemapSet ⊆ (step c s).sitemapSet) :
    ∀ (entries : List (Option String)) (st : ResolveState),
      st.sitemapSet ⊆ (resolveChildren step entries st).sitemapSet := by
  intro entries
  induction entries with
  | nil => intro st; simp only [resolveChildren]; exact fun x hx => hx
  | cons e rest ih =>
    intro st
    cases e with
    | none => simp only [resolveChildren]; exact ih st
    | some c =>
      simp only [resolveChildren]
      by_cases hc : c = ""
      · simp only [if_pos hc]; exact ih st
      · simp only [if_neg hc]
        by_cases hm : c ∈ st.sitemapSet
        · simp only [if_pos hm]; exact ih st
        · simp only [if_neg hm]
          intro x hx
          exact ih _ (hstep c _ (List.mem_append_left _ hx))

theorem resolveStep_set_mono (w : World) :
    ∀ (fuel : Nat) (u : String) (st : ResolveState),
      st.sitemapSet ⊆ (resolveStep w fuel u st).sitemapSet := by
  intro fuel
  induction fuel with
  | zero => intro u st; rw [resolveStep]; exact fun x hx => hx
  | succ fuel ih =>
    intro u st
    cases hfp : w.fetchParse u with
    | none => simp only [resolveStep, hfp]; exact fun x hx => hx
    | some d =>
      cases d with
      | other => simp only [resolveStep, hfp]; exact fun x hx => hx
      | urlset entries => simp only [resolveStep, hfp]; exact fun x hx => hx
      | index entries =>
        simp only [resolveStep, hfp]
        exact resolveChildren_set_mono _ (fun c s => ih c s) entries
          ⟨st.urlMap, st.sitemapSet, st.trace ++ [u]⟩

/- ### Resolver: each sitemap is fetched at most once -/

theorem resolveChildren_trace_inv (step : String → ResolveState → ResolveState)
    (hstep : ∀ c s, s.trace.Nodup → (∀ x ∈ s.trace, x ∈ s.sitemapSet) →
      c ∈ s.sitemapSet → c ∉ s.trace →
      (step c s).trace.Nodup ∧ ∀ x ∈ (step c s).trace, x ∈ (step c s).sitemapSet) :
    ∀ entries st, st.trace.Nodup → (∀ x ∈ st.trace, x ∈ st.sitemapSet) →
      (resolveChildren step entries st).trace.Nodup ∧
        ∀ x ∈ (resolveChildren step entries st).trace,
          x ∈ (resolveChildren step entries st).sitemapSet := by
  intro entries
  induction entries with
  | nil => intro st h1 h2; simp only [resolveChildren]; exact ⟨h1, h2⟩
  | cons e rest ih =>
    intro st h1 h2
    cases e with
    | none => simp only [resolveChildren]; exact ih st h1 h2
    | some c =>
      simp only [resolveChildren]
      by_cases hc : c = ""
      · simp only [if_pos hc]; exact ih st h1 h2
      · simp only [if_neg hc]
        by_cases hm : c ∈ st.sitemapSet
        · simp only [if_pos hm]; exact ih st h1 h2
        · simp only [if_neg hm]
          have hpre := hstep c ⟨st.urlMap, st.sitemapSet ++ [c], st.trace⟩ h1
            (fun x hx => List.mem_append_left _ (h2 x hx))
            (List.mem_append_right _ (List.mem_singleton_self c))
            (fun hct => hm (h2 c hct))
          exact ih _ hpre.1 hpre.2

theorem resolveStep_trace_inv (w : World) :
    ∀ fuel u st, st.trace.Nodup → (∀ x ∈ st.trace, x ∈ st.sitemapSet) →
      u ∈ st.sitemapSet → u ∉ st.trace →
      (resolveStep w fuel u st).trace.Nodup ∧
        ∀ x ∈ (resolveStep w fuel u st).trace, x ∈ (resolveStep w fuel u st).sitemapSet := by
  intro fuel
  induction fuel with
  | zero => intro u st h1 h2 _ _; rw [resolveStep]; exact ⟨h1, h2⟩
  | succ fuel ih =>
    intro u st h1 h2 hu hut
    have h1' : (st.trace ++ [u]).Nodup := by
      rw [List.nodup_append]
      exact ⟨h1, List.nodup_singleton u,
        fun x hx hxu => hut ((List.mem_singleton.mp hxu) ▸ hx)⟩
    have h2' : ∀ x ∈ st.trace ++ [u], x ∈ st.sitemapSet := by
      intro x hx
      rcases List.mem_append.mp hx with hx | hx
      · exact h2 x hx
      · rw [List.mem_singleton.mp hx]; exact hu
    cases hfp : w.fetchParse u with
    | none => simp only [resolveStep, hfp]; exact ⟨h1', h2'⟩
    | some d =>
      cases d with
      | other => simp only [resolveStep, hfp]; exact ⟨h1', h2'⟩
      | urlset entries => simp only [resolveStep, hfp]; exact ⟨h1', h2'⟩
      | index entries =>
        simp only [resolveStep, hfp]
        exact resolveChildren_trace_inv _
          (fun c s a b c' d' => ih c s a b c' d') entries
          ⟨st.urlMap, st.sitemapSet, st.trace ++ [u]⟩ h1' h2'

/- ### Resolver: fuel irrelevance (termination) -/

theorem resolveChildren_stab (w : World) (fuel : Nat)
    (ihs : ∀ u st, unvisited w st < fuel →
      resolveStep w fuel u st = resolveStep w (fuel + 1) u st) :
    ∀ entries st, (∀ c, some c ∈ entries → c ≠ "" → c ∈ childUrls w) →
      unvisited w st ≤ fuel →
      resolveChildren (resolveStep w fuel) entries st
        = resolveChildren (resolveStep w (fuel + 1)) entries st := by
  intro entries
  induction entries with
  | nil => intro st _ _; simp [resolveChildren]
  | cons e rest ih =>
    intro st hsub hm
    have hsub' : ∀ c, some c ∈ rest → c ≠ "" → c ∈ childUrls w :=
      fun c hc hne => hsub c (List.mem_cons_of_mem _ hc) hne
    cases e with
    | none => simp only [resolveChildren]; exact ih st hsub' hm
    | some c =>
      simp only [resolveChildren]
      by_cases hc : c = ""
      · simp only [if_pos hc]; exact ih st hsub' hm
      · simp only [if_neg hc]
        by_cases hmem : c ∈ st.sitemapSet
        · simp only [if_pos hmem]; exact ih st hsub' hm
        · simp only [if_neg hmem]
          have hcu : c ∈ childUrls w := hsub c (List.mem_cons_self _ _) hc
          have hlt : unvisited w ⟨st.urlMap, st.sitemapSet ++ [c], st.trace⟩ < unvisited w st :=
            unvisited_insert_lt w st c hcu hmem
          have heq := ihs c ⟨st.urlMap, st.sitemapSet ++ [c], st.trace⟩
            (lt_of_lt_of_le hlt hm)
          rw [← heq]
          refine ih _ hsub' ?_
          have hmono : unvisited w
              (resolveStep w fuel c ⟨st.urlMap, st.sitemapSet ++ [c], st.trace⟩)
              ≤ unvisited w ⟨st.urlMap, st.sitemapSet ++ [c], st.trace⟩ :=
            unvisited_mono w (resolveStep_set_mono w fuel c _)
          omega

theorem resolveStep_stab (w : World) :
    ∀ fuel u st, unvisited w st < fuel →
      resolveStep w fuel u st = resolveStep w (fuel + 1) u st := by
  intro fuel
  induction fuel with
  | zero => intro u st h; exact absurd h (Nat.not_lt_zero _)
  | succ fuel ih =>
    intro u st h
    cases hfp : w.fetchParse u with
    | none => simp only [resolveStep, hfp]
    | some d =>
      cases d with
      | other => simp only [resolveStep, hfp]
      | urlset entries => simp only [resolveStep, hfp]
      | index entries =>
        simp only [resolveStep, hfp]
        exact resolveChildren_stab w fuel (fun u' st' h' => ih u' st' h') entries
          ⟨st.urlMap, st.sitemapSet, st.trace ++ [u]⟩
          (fun c hce hne => mem_childUrls w u entries hfp c hce hne)
          (Nat.lt_succ_iff.mp h)

theorem resolveStep_stabilizes (w : World) (fuel₁ fuel₂ : Nat) (u : String)
    (st : ResolveState) (h₁ : unvisited w st < fuel₁) (hle : fuel₁ ≤ fuel₂) :
    resolveStep w fuel₂ u st = resolveStep w fuel₁ u st := by
  induction fuel₂, hle using Nat.le_induction with
  | base => rfl
  | succ n hn ih => rw [← resolveStep_stab w n u st (lt_of_lt_of_le h₁ hn), ih]

/-- **C1.** For every sitemap tree — cyclic ones included — the resolution run
by the handler (visited set seeded with the root) terminates: any fuel at
least `resolveBound w` yields the same, stable result, so the fuel-free JS
recursion reaches it; and each sitemap file is fetched and parsed at most
once (`trace`, the list of `extractUrlsAndSitemaps` invocations, has no
duplicate), because each child URL is inserted into the visited set before
the recursive call. -/
theorem resolution_terminates_and_visits_once (w : World) (root : String) (fuel : Nat)
    (h : resolveBound w ≤ fuel) :
    resolveStep w fuel root (initState root) = resolveRoot w root ∧
      (resolveRoot w root).trace.Nodup := by
  constructor
  · exact resolveStep_stabilizes w (resolveBound w) fuel root (initState root)
      (unvisited_lt_resolveBound w _) h
  · exact (resolveStep_trace_inv w (resolveBound w) root (initState root)
      List.nodup_nil (fun x hx => absurd hx (List.not_mem_nil x))
      (List.mem_singleton_self root) (List.not_mem_nil root)).1

/-- Witness for C1: a world whose root index references itself and whose child
index references the root, itself and a leaf. -/
theorem resolution_terminates_and_visits_once_witness :
    resolveBound wCyclic ≤ 9 ∧
      (resolveStep wCyclic 9 rootUrl (initState rootUrl) = resolveRoot wCyclic rootUrl ∧
        (resolveRoot wCyclic rootUrl).trace.Nodup) :=
  ⟨by decide, resolution_terminates_and_visits_once wCyclic rootUrl 9 (by decide)⟩

/- ### Resolver: first parent wins -/

theorem lookup_append {β : Type _} (l₁ l₂ : List (String × β)) (k : String) :
    (l₁ ++ l₂).lookup k = ((l₁.lookup k).or (l₂.lookup k)) := by
  induction l₁ with
  | nil => simp [List.lookup]
  | cons p rest ih =>
    obtain ⟨a, b⟩ := p
    simp only [List.cons_append, List.lookup]
    cases hab : k == a
    · simpa [hab] using ih
    · simp [hab]

theorem find?_singleton {α : Type _} (p : α → Bool) (a : α) :
    List.find? p [a] = if p a then some a else none := by
  cases h : p a <;> simp [List.find?_cons, h]

theorem addLocs_lookup (parent : String) :
    ∀ (entries : List (Option String)) (m : List (String × String)) (v : String),
      (addLocs m parent entries).lookup v
        = ((m.lookup v).or
            (if decide (v ≠ "") && decide (some v ∈ entries) then some parent else none)) := by
  intro entries
  induction entries with
  | nil => intro m v; simp [addLocs]
  | cons e rest ih =>
    intro m v
    cases e with
    | none =>
      simp only [addLocs]
      rw [ih]
      have : decide (some v ∈ (none :: rest : List (Option String)))
          = decide (some v ∈ rest) := by simp
      rw [this]
    | some loc =>
      by_cases hl : loc = ""
      · subst hl
        simp only [addLocs, if_true]
        rw [ih]
        by_cases hv : v = ""
        · subst hv; simp
        · have h1 : decide (some v ∈ (some "" :: rest : List (Option String)))
              = decide (some v ∈ rest) := by
            simp only [List.mem_cons, Option.some.injEq, decide_eq_decide]
            constructor
            · rintro (h | h)
              · exact absurd h hv
              · exact h
            · exact Or.inr
          rw [h1]
      · simp only [addLocs, if_neg hl]
        cases hms : (m.lookup loc).isSome
        · simp only [Bool.false_eq_true, if_false]
          rw [ih, lookup_append]
          by_cases hv : v = ""
          · subst hv
            have h1 : (([(loc, parent)] : List (String × String)).lookup "") = none := by
              simp only [List.lookup]
              rw [show (("" : String) == loc) = false by simp [Ne.symm hl]]
            simp [h1]
          · by_cases hvl : v = loc
            · subst hvl
              have hnone : m.lookup v = none := by
                cases h : m.lookup v
                · rfl
                · rw [h] at hms; simp at hms
              rw [hnone]
              simp only [List.lookup, beq_self_eq_true, Option.none_or]
              have h1 : decide (some v ∈ (some v :: rest : List (Option String))) = true := by
                simp
              rw [h1]
              simp [hv]
            · have h1 : (([(loc, parent)] : List (String × String)).lookup v) = none := by
                simp only [List.lookup]
                have : (v == loc) = false := by
                  simp only [beq_eq_false_iff_ne, ne_eq]; exact hvl
                rw [this]
              rw [h1]
              have h2 : decide (some v ∈ (some loc :: rest : List (Option String)))
                  = decide (some v ∈ rest) := by
                simp only [List.mem_cons, Option.some.injEq, decide_eq_decide]
                constructor
                · rintro (h | h)
                  · exact absurd h hvl
                  · exact h
                · exact Or.inr
              rw [h2]
              cases m.lookup v <;> simp
        · simp only [if_true]
          rw [ih]
          by_cases hv : v = ""
          · subst hv; simp
          · by_cases hvl : v = loc
            · subst hvl
              rw [Option.isSome_iff_exists] at hms
              obtain ⟨x, hx⟩ := hms
              rw [hx]
              simp
            · have h2 : decide (some v ∈ (some loc :: rest : List (Option String)))
                  = decide (some v ∈ rest) := by
                simp only [List.mem_cons, Option.some.injEq, decide_eq_decide]
                constructor
                · rintro (h | h)
                  · exact absurd h hvl
                  · exact h
                · exact Or.inr
              rw [h2]

theorem resolveChildren_map_inv (w : World) (step : String → ResolveState → ResolveState)
    (hstep : ∀ c s, mapTraceInv w s → mapTraceInv w (step c s)) :
    ∀ entries st, mapTraceInv w st → mapTraceInv w (resolveChildren step entries st) := by
  intro entries
  induction entries with
  | nil => intro st h; simpa only [resolveChildren] using h
  | cons e rest ih =>
    intro st h
    cases e with
    | none => simp only [resolveChildren]; exact ih st h
    | some c =>
      simp only [resolveChildren]
      by_cases hc : c = ""
      · simp only [if_pos hc]; exact ih st h
      · simp only [if_neg hc]
        by_cases hm : c ∈ st.sitemapSet
        · simp only [if_pos hm]; exact ih st h
        · simp only [if_neg hm]
          exact ih _ (hstep c ⟨st.urlMap, st.sitemapSet ++ [c], st.trace⟩ (fun v => h v))

theorem resolveStep_map_inv (w : World) :
    ∀ fuel u st, mapTraceInv w st → mapTraceInv w (resolveStep w fuel u st) := by
  intro fuel
  induction fuel with
  | zero => intro u st h; rw [resolveStep]; exact h
  | succ fuel ih =>
    intro u st h
    cases hfp : w.fetchParse u with
    | none =>
      simp only [resolveStep, hfp]
      intro v
      rw [List.find?_append, find?_singleton]
      have : docHasLoc w u v = false := by simp [docHasLoc, hfp]
      rw [this]
      simp only [Bool.false_eq_true, if_false, Option.or_none]
      exact h v
    | some d =>
      cases d with
      | other =>
        simp only [resolveStep, hfp]
        intro v
        rw [List.find?_append, find?_singleton]
        have : docHasLoc w u v = false := by simp [docHasLoc, hfp]
        rw [this]
        simp only [Bool.false_eq_true, if_false, Option.or_none]
        exact h v
      | index entries =>
        simp only [resolveStep, hfp]
        refine resolveChildren_map_inv w _ (fun c s hs => ih c s hs) entries
          ⟨st.urlMap, st.sitemapSet, st.trace ++ [u]⟩ ?_
        intro v
        rw [List.find?_append, find?_singleton]
        have : docHasLoc w u v = false := by simp [docHasLoc, hfp]
        rw [this]
        simp only [Bool.false_eq_true, if_false, Option.or_none]
        exact h v
      | urlset entries =>
        simp only [resolveStep, hfp]
        intro v
        rw [addLocs_lookup, List.find?_append, find?_singleton, h v]
        have : docHasLoc w u v = (decide (v ≠ "") && decide (some v ∈ entries)) := by
          simp [docHasLoc, hfp]
        rw [this]

/-- **C3.** First-parent-wins, in full: after a resolution pass the url map's
entry for any content URL `v` is exactly the first sitemap file, in the
depth-first in-order resolution sequence (`trace`), whose url-set document
lists `v` as a truthy `loc` — and absent when no resolved sitemap lists it.
A URL appearing under several parents therefore keeps the parent resolved
first. -/
theorem first_parent_wins (w : World) (root v : String) :
    (resolveRoot w root).urlMap.lookup v
      = (resolveRoot w root).trace.find? (fun s => docHasLoc w s v) :=
  resolveStep_map_inv w (resolveBound w) root (initState root)
    (fun v' => by simp [initState, List.lookup]) v

/- ### Duplicate-tolerant bulk insert -/

theorem contains_iff_mem {l : List String} {k : String} : l.contains k = true ↔ k ∈ l := by
  simp [List.contains]

theorem insertManyBy_length {α : Type _} (key : α → String) :
    ∀ (l db : List α),
      (insertManyBy key db l).1.length = db.length + (insertManyBy key db l).2 := by
  intro l
  induction l with
  | nil => intro db; simp [insertManyBy]
  | cons r rest ih =>
    intro db
    simp only [insertManyBy]
    cases hc : (db.map key).contains (key r)
    · simp only [Bool.false_eq_true, if_false]
      rw [ih (db ++ [r])]
      simp only [List.length_append, List.length_singleton]
      omega
    · simp only [if_true]
      exact ih db

theorem insertManyBy_keys_sub {α : Type _} (key : α → String) :
    ∀ (l db : List α) (k : String), k ∈ db.map key →
      k ∈ (insertManyBy key db l).1.map key := by
  intro l
  induction l with
  | nil => intro db k h; simpa [insertManyBy] using h
  | cons r rest ih =>
    intro db k h
    simp only [insertManyBy]
    cases hc : (db.map key).contains (key r)
    · simp only [Bool.false_eq_true, if_false]
      refine ih (db ++ [r]) k ?_
      simpa [List.map_append] using Or.inl h
    · simp only [if_true]
      exact ih db k h

theorem insertManyBy_key_present {α : Type _} (key : α → String) :
    ∀ (l db : List α) (r : α), r ∈ l →
      key r ∈ (insertManyBy key db l).1.map key := by
  intro l
  induction l with
  | nil => intro db r h; cases h
  | cons a rest ih =>
    intro db r h
    simp only [insertManyBy]
    rcases List.mem_cons.mp h with rfl | h'
    · cases hc : (db.map key).contains (key r)
      · simp only [Bool.false_eq_true, if_false]
        refine insertManyBy_keys_sub key rest (db ++ [r]) (key r) ?_
        simp [List.map_append]
      · simp only [if_true]
        exact insertManyBy_keys_sub key rest db (key r) (contains_iff_mem.mp hc)
    · cases hc : (db.map key).contains (key a)
      · simp only [Bool.false_eq_true, if_false]
        exact ih (db ++ [a]) r h'
      · simp only [if_true]
        exact ih db r h'

theorem insertManyBy_mem {α : Type _} (key : α → String) :
    ∀ (l db : List α) (r : α), r ∈ (insertManyBy key db l).1 → r ∈ db ∨ r ∈ l := by
  intro l
  induction l with
  | nil => intro db r h; exact Or.inl (by simpa [insertManyBy] using h)
  | cons a rest ih =>
    intro db r h
    simp only [insertManyBy] at h
    cases hc : (db.map key).contains (key a) <;> rw [hc] at h
    · simp only [Bool.false_eq_true, if_false] at h
      rcases ih (db ++ [a]) r h with hdb | hl
      · rcases List.mem_append.mp hdb with hdb | hr
        · exact Or.inl hdb
        · exact Or.inr (List.mem_cons.mpr (Or.inl (List.mem_singleton.mp hr)))
      · exact Or.inr (List.mem_cons_of_mem _ hl)
    · simp only [if_true] at h
      rcases ih db r h with hdb | hl
      · exact Or.inl hdb
      · exact Or.inr (List.mem_cons_of_mem _ hl)

theorem insertManyBy_all_dup {α : Type _} (key : α → String) :
    ∀ (l db : List α), (∀ r ∈ l, key r ∈ db.map key) → insertManyBy key db l = (db, 0) := by
  intro l
  induction l with
  | nil => intro db _; rfl
  | cons a rest ih =>
    intro db h
    simp only [insertManyBy]
    have hc : (db.map key).contains (key a) = true :=
      contains_iff_mem.mpr (h a (List.mem_cons_self _ _))
    rw [hc]
    simp only [if_true]
    exact ih db (fun r hr => h r (List.mem_cons_of_mem _ hr))

theorem insertManyBy_fresh {α : Type _} (key : α → String) :
    ∀ (l db : List α), (l.map key).Nodup → (∀ r ∈ l, key r ∉ db.map key) →
      insertManyBy key db l = (db ++ l, l.length) := by
  intro l
  induction l with
  | nil => intro db _ _; simp [insertManyBy]
  | cons a rest ih =>
    intro db hnd hfresh
    simp only [insertManyBy]
    have hc : (db.map key).contains (key a) = false := by
      cases h : (db.map key).contains (key a)
      · rfl
      · exact absurd (contains_iff_mem.mp h) (hfresh a (List.mem_cons_self _ _))
    rw [hc]
    simp only [Bool.false_eq_true, if_false]
    have hnd' : (rest.map key).Nodup := (List.nodup_cons.mp (by simpa using hnd)).2
    have hka : key a ∉ rest.map key := (List.nodup_cons.mp (by simpa using hnd)).1
    have hfresh' : ∀ r ∈ rest, key r ∉ (db ++ [a]).map key := by
      intro r hr
      rw [List.map_append, List.mem_append]
      rintro (hin | hin)
      · exact hfresh r (List.mem_cons_of_mem _ hr) hin
      · simp only [List.map_cons, List.map_nil, List.mem_singleton] at hin
        exact hka (hin ▸ List.mem_map_of_mem key hr)
    rw [ih (db ++ [a]) hnd' hfresh']
    simp only [List.append_assoc, List.singleton_append, List.length_cons]

/- ### C2: the `ResolutionEmptyError` branch is unreachable -/

theorem root_mem_resolveRoot (w : World) (root : String) :
    root ∈ (resolveRoot w root).sitemapSet :=
  resolveStep_set_mono w (resolveBound w) root (initState root)
    (List.mem_singleton_self root)

theorem importSitemap_ne_notFound (w : World) (qp : String → Option PageData)
    (originOf : String → Option String) (su fp : Option String) (eqf : Bool) (db : Db) :
    (importSitemap w qp originOf su fp eqf db).1 ≠ ImportResult.notFound := by
  cases su with
  | none => simp [importSitemap]
  | some u =>
    by_cases hu : u = ""
    · simp [importSitemap, hu]
    · cases ho : originOf u with
      | none => simp [importSitemap, hu, ho]
      | some origin =>
        have hcond : ¬((resolveRoot w u).urlMap = [] ∧
            (resolveRoot w u).sitemapSet = []) := by
          rintro ⟨-, h2⟩
          have := root_mem_resolveRoot w u
          rw [h2] at this
          exact List.not_mem_nil u this
        simp [importSitemap, hu, ho, hcond]

/-- **C2 is a code bug.**  The handler seeds `allFoundSitemaps` with the root
URL *before* resolving, so `allFoundSitemaps.size === 0` can never hold and
the `404 'No content found in the provided sitemap.'` response is
unreachable: an import is never reported as failed with the nothing-found
error, contrary to the spec's `ResolutionEmptyError`.  First conjunct: no
input whatsoever produces `notFound`.  Second conjunct evaluates the handler
at the failing input — a root whose fetch fails, resolving to zero URLs and
zero child sitemaps — and shows it reports success with zero counts instead
of the 404. -/
theorem empty_resolution_error_unreachable (w : World) (qp : String → Option PageData)
    (originOf : String → Option String) (su fp : Option String) (eqf : Bool) (db : Db) :
    (importSitemap w qp originOf su fp eqf db).1 ≠ ImportResult.notFound ∧
      (importSitemap ⟨[]⟩ qpNone origFun (some rootUrl) none false dbEmpty).1
        = ImportResult.ok ⟨0, 1, 0, 0, 0, 0⟩ :=
  ⟨importSitemap_ne_notFound w qp originOf su fp eqf db, by decide⟩

/- ### The batch loop is a plain left fold -/

theorem chunksOfAux_congr {α : Type _} (n : Nat) (hn : n ≠ 0) :
    ∀ (fuel₁ fuel₂ : Nat) (l : List α), l.length ≤ fuel₁ → l.length ≤ fuel₂ →
      chunksOfAux n fuel₁ l = chunksOfAux n fuel₂ l := by
  intro fuel₁
  induction fuel₁ with
  | zero =>
    intro fuel₂ l h1 _
    have : l = [] := List.eq_nil_of_length_eq_zero (Nat.le_zero.mp h1)
    subst this
    cases fuel₂ <;> rfl
  | succ fuel ih =>
    intro fuel₂ l h1 h2
    cases l with
    | nil => cases fuel₂ <;> rfl
    | cons x xs =>
      cases fuel₂ with
      | zero => exact absurd h2 (by simp)
      | succ fuel₂ =>
        simp only [chunksOfAux, if_neg hn]
        congr 1
        refine ih fuel₂ ((x :: xs).drop n) ?_ ?_
        · simp only [List.length_drop, List.length_cons]
          simp only [List.length_cons] at h1
          omega
        · simp only [List.length_drop, List.length_cons]
          simp only [List.length_cons] at h2
          omega

theorem foldl_chunksOf {α β : Type _} (n : Nat) (hn : n ≠ 0) (g : β → α → β) :
    ∀ (l : List α) (init : β),
      (chunksOf n l).foldl (fun acc b => b.foldl g acc) init = l.foldl g init := by
  have H : ∀ (k : Nat) (l : List α), l.length ≤ k → ∀ init,
      (chunksOf n l).foldl (fun acc b => b.foldl g acc) init = l.foldl g init := by
    intro k
    induction k with
    | zero =>
      intro l hl init
      have : l = [] := List.eq_nil_of_length_eq_zero (Nat.le_zero.mp hl)
      subst this
      rfl
    | succ k ih =>
      intro l hl init
      cases l with
      | nil => rfl
      | cons x xs =>
        show (chunksOfAux n (x :: xs).length (x :: xs)).foldl _ init = _
        simp only [List.length_cons, chunksOfAux, if_neg hn, List.foldl_cons]
        rw [chunksOfAux_congr n hn xs.length ((x :: xs).drop n).length ((x :: xs).drop n)
          (by simp only [List.length_drop, List.length_cons]; omega) (le_refl _)]
        rw [show chunksOfAux n ((x :: xs).drop n).length ((x :: xs).drop n)
          = chunksOf n ((x :: xs).drop n) from rfl]
        rw [ih ((x :: xs).drop n)
          (by simp only [List.length_drop, List.length_cons] at hl ⊢; omega)]
        rw [← List.foldl_append, List.take_append_drop]
        rfl
  intro l init
  exact H l.length l (le_refl _) init

theorem accum_fold_spec (origin : String) (m : List (String × String))
    (qp : String → Option PageData) (fp : Option String) (eqf : Bool) :
    ∀ (cands : List String) (recs : List UrlRecord) (ps qs : Nat),
      cands.foldl (accumStep origin m qp fp eqf) (recs, ps, qs)
        = (recs ++ (cands.filter
              (fun u => decide (classify qp fp eqf u = CandStatus.keep))).map (mkUrlRecord origin m),
          ps + (cands.filter
              (fun u => decide (classify qp fp eqf u = CandStatus.patternSkipped))).length,
          qs + (cands.filter
              (fun u => decide (classify qp fp eqf u = CandStatus.qualitySkipped))).length) := by
  intro cands
  induction cands with
  | nil => intro recs ps qs; simp
  | cons c rest ih =>
    intro recs ps qs
    rw [List.foldl_cons, List.filter_cons, List.filter_cons, List.filter_cons]
    cases hcl : classify qp fp eqf c with
    | keep =>
      have hstep : accumStep origin m qp fp eqf (recs, ps, qs) c
          = (recs ++ [mkUrlRecord origin m c], ps, qs) := by
        unfold accumStep
        rw [hcl]
        rfl
      rw [hstep, ih]
      simp [hcl, List.append_assoc]
    | patternSkipped =>
      have hstep : accumStep origin m qp fp eqf (recs, ps, qs) c
          = (recs, ps + 1, qs) := by
        unfold accumStep
        rw [hcl]
        rfl
      rw [hstep, ih]
      simp [hcl]
      omega
    | qualitySkipped =>
      have hstep : accumStep origin m qp fp eqf (recs, ps, qs) c
          = (recs, ps, qs + 1) := by
        unfold accumStep
        rw [hcl]
        rfl
      rw [hstep, ih]
      simp [hcl]
      omega

theorem processCandidates_eq (qp : String → Option PageData) (fp : Option String)
    (eqf : Bool) (origin : String) (m : List (String × String)) (cands : List String) :
    processCandidates qp fp eqf origin m cands
      = ((cands.filter
            (fun u => decide (classify qp fp eqf u = CandStatus.keep))).map (mkUrlRecord origin m),
        (cands.filter
            (fun u => decide (classify qp fp eqf u = CandStatus.patternSkipped))).length,
        (cands.filter
            (fun u => decide (classify qp fp eqf u = CandStatus.qualitySkipped))).length) := by
  unfold processCandidates
  have hmap : (fun (acc : List UrlRecord × Nat × Nat) (batch : List String) =>
        (batch.map fun u => (classify qp fp eqf u, u)).foldl (accumResult origin m) acc)
      = fun acc batch => batch.foldl (accumStep origin m qp fp eqf) acc := by
    funext acc batch
    rw [List.foldl_map]
    rfl
  rw [hmap, foldl_chunksOf 10 (by decide), accum_fold_spec]
  simp

/- ### Evaluating the happy path of the import handler -/

theorem importSitemap_eval (w : World) (qp : String → Option PageData)
    (originOf : String → Option String) (u : String) (fp : Option String) (eqf : Bool)
    (db : Db) (origin : String) (hu : u ≠ "") (ho : originOf u = some origin) :
    importSitemap w qp originOf (some u) fp eqf db
      = (ImportResult.ok
          ⟨(insertManyBy (fun x => x.url) db.urls (keepRecords w qp fp eqf origin u)).2,
            (insertManyBy (fun x => x.url) db.sitemaps
              ((resolveRoot w u).sitemapSet.map (fun su => SitemapRecord.mk su origin))).2,
            (resolveRoot w u).urlMap.length,
            (processCandidates qp fp eqf origin (resolveRoot w u).urlMap
              (urlMapKeys (resolveRoot w u).urlMap)).2.1
              + (processCandidates qp fp eqf origin (resolveRoot w u).urlMap
                (urlMapKeys (resolveRoot w u).urlMap)).2.2,
            (processCandidates qp fp eqf origin (resolveRoot w u).urlMap
              (urlMapKeys (resolveRoot w u).urlMap)).2.1,
            (processCandidates qp fp eqf origin (resolveRoot w u).urlMap
              (urlMapKeys (resolveRoot w u).urlMap)).2.2⟩,
        ⟨(insertManyBy (fun x => x.url) db.urls (keepRecords w qp fp eqf origin u)).1,
          (insertManyBy (fun x => x.url) db.sitemaps
            ((resolveRoot w u).sitemapSet.map (fun su => SitemapRecord.mk su origin))).1⟩) := by
  have hcond : ¬((resolveRoot w u).urlMap = [] ∧ (resolveRoot w u).sitemapSet = []) := by
    rintro ⟨-, h2⟩
    have := root_mem_resolveRoot w u
    rw [h2] at this
    exact List.not_mem_nil u this
  simp [importSitemap, hu, ho, hcond, keepRecords]

/- ### C4: idempotent import, duplicate tolerance, exact counts -/

/-- **C4.** Re-importing the same sitemap tree with no intervening writes
stores nothing new: the second run reports `newUrlsStored = 0`, leaves the
url collection unchanged, and reports the same `totalUrlsFound`; moreover a
duplicate-key-tolerant bulk insert never aborts, and each run's reported
stored count is exactly the number of records actually added to the store. -/
theorem import_idempotent (w : World) (qp : String → Option PageData)
    (originOf : String → Option String) (su fp : Option String) (eqf : Bool) (db : Db)
    (r₁ r₂ : ImportReport) (db₁ db₂ : Db)
    (h₁ : importSitemap w qp originOf su fp eqf db = (ImportResult.ok r₁, db₁))
    (h₂ : importSitemap w qp originOf su fp eqf db₁ = (ImportResult.ok r₂, db₂)) :
    r₂.newUrlsStored = 0 ∧ db₂.urls = db₁.urls ∧ r₂.totalUrlsFound = r₁.totalUrlsFound ∧
      db₁.urls.length = db.urls.length + r₁.newUrlsStored ∧
      db₂.urls.length = db₁.urls.length + r₂.newUrlsStored := by
  cases su with
  | none => simp [importSitemap] at h₁
  | some u =>
    by_cases hu : u = ""
    · simp [importSitemap, hu] at h₁
    · cases ho : originOf u with
      | none => simp [importSitemap, hu, ho] at h₁
      | some origin =>
        rw [importSitemap_eval w qp originOf u fp eqf db origin hu ho] at h₁
        rw [importSitemap_eval w qp originOf u fp eqf db₁ origin hu ho] at h₂
        injection h₁ with h1a h1b
        injection h1a with h1r
        subst h1r
        subst h1b
        injection h₂ with h2a h2b
        injection h2a with h2r
        subst h2r
        subst h2b
        have hdup : ∀ rec ∈ keepRecords w qp fp eqf origin u,
            (fun x : UrlRecord => x.url) rec
              ∈ ((insertManyBy (fun x : UrlRecord => x.url) db.urls
                  (keepRecords w qp fp eqf origin u)).1.map (fun x => x.url)) :=
          fun rec hrec => insertManyBy_key_present _ _ db.urls rec hrec
        have hzero := insertManyBy_all_dup (fun x : UrlRecord => x.url)
          (keepRecords w qp fp eqf origin u)
          (insertManyBy (fun x : UrlRecord => x.url) db.urls
            (keepRecords w qp fp eqf origin u)).1 hdup
        refine ⟨?_, ?_, ?_, ?_, ?_⟩
        · simp [hzero]
        · simp [hzero]
        · rfl
        · exact insertManyBy_length _ _ _
        · exact insertManyBy_length _ _ _

/-- Witness for C4: importing a two-URL url set twice against an empty store. -/
theorem import_idempotent_witness :
    ∃ r₁ r₂ db₁ db₂,
      importSitemap wTwo qpNone origFun (some rootUrl) none false dbEmpty
        = (ImportResult.ok r₁, db₁) ∧
      importSitemap wTwo qpNone origFun (some rootUrl) none false db₁
        = (ImportResult.ok r₂, db₂) ∧
      (r₂.newUrlsStored = 0 ∧ db₂.urls = db₁.urls ∧ r₂.totalUrlsFound = r₁.totalUrlsFound ∧
        db₁.urls.length = dbEmpty.urls.length + r₁.newUrlsStored ∧
        db₂.urls.length = db₁.urls.length + r₂.newUrlsStored) := by
  refine ⟨_, _, _, _, rfl, rfl, ?_⟩
  exact import_idempotent wTwo qpNone origFun (some rootUrl) none false dbEmpty
    _ _ _ _ rfl rfl

/- ### C5: pattern filter strictly before quality filter -/

theorem classify_eq_patternSkipped (qp : String → Option PageData) (fp : Option String)
    (eqf : Bool) (url : String) :
    decide (classify qp fp eqf url = CandStatus.patternSkipped) = patternRejects fp url := by
  cases hp : patternRejects fp url
  · cases hq : (eqf && !checkUrlQuality qp url)
    · simp [classify, hp, hq]
    · simp [classify, hp, hq]
  · simp [classify, hp]

theorem classify_eq_qualitySkipped (qp : String → Option PageData) (fp : Option String)
    (eqf : Bool) (url : String) :
    decide (classify qp fp eqf url = CandStatus.qualitySkipped)
      = (!patternRejects fp url && (eqf && !checkUrlQuality qp url)) := by
  cases hp : patternRejects fp url
  · cases hq : (eqf && !checkUrlQuality qp url)
    · simp [classify, hp, hq]
    · simp [classify, hp, hq]
  · simp [classify, hp]

/-- **C5.** In the per-candidate filter closure the pattern filter runs first:
a pattern-rejected candidate is classified `pattern_skipped` and the quality
scanner is not invoked for it (the classification does not depend on the page
oracle at all); a candidate that survives the pattern but fails quality is
classified `quality_skipped`; and the report's two skip counters count
exactly the pattern-rejected candidates resp. the pattern-surviving,
quality-failing candidates. -/
theorem filters_ordered_and_attributed (w : World) (qp : String → Option PageData)
    (originOf : String → Option String) (u : String) (fp : Option String) (eqf : Bool)
    (db : Db) (r : ImportReport) (db' : Db)
    (h : importSitemap w qp originOf (some u) fp eqf db = (ImportResult.ok r, db')) :
    (∀ url, patternRejects fp url = true →
        classify qp fp eqf url = CandStatus.patternSkipped ∧
          qualityInvoked fp eqf url = false) ∧
    (∀ (qp' : String → Option PageData) url, qualityInvoked fp eqf url = false →
        classify qp' fp eqf url = classify qp fp eqf url) ∧
    (∀ url, patternRejects fp url = false → eqf = true → checkUrlQuality qp url = false →
        classify qp fp eqf url = CandStatus.qualitySkipped) ∧
    r.patternSkipped
      = ((importCandidates w u).filter (fun url => patternRejects fp url)).length ∧
    r.qualitySkipped
      = ((importCandidates w u).filter
          (fun url => !patternRejects fp url && (eqf && !checkUrlQuality qp url))).length ∧
    (∀ (origin : String) (rec : UrlRecord), rec ∈ keepRecords w qp fp eqf origin u →
        classify qp fp eqf rec.url = CandStatus.keep) := by
  refine ⟨?_, ?_, ?_, ?_, ?_, ?_⟩
  · intro url hp
    constructor
    · simp [classify, hp]
    · simp [qualityInvoked, hp]
  · intro qp' url hq
    cases hp : patternRejects fp url
    · simp only [qualityInvoked, hp, Bool.not_false, Bool.true_and] at hq
      simp [classify, hp, hq]
    · simp [classify, hp]
  · intro url hp heq hqual
    simp [classify, hp, heq, hqual]
  · by_cases hu : u = ""
    · simp [importSitemap, hu] at h
    · cases ho : originOf u with
      | none => simp [importSitemap, hu, ho] at h
      | some origin =>
        rw [importSitemap_eval w qp originOf u fp eqf db origin hu ho] at h
        injection h with h1a h1b
        injection h1a with h1r
        subst h1r
        show (processCandidates qp fp eqf origin (resolveRoot w u).urlMap
          (urlMapKeys (resolveRoot w u).urlMap)).2.1 = _
        rw [processCandidates_eq]
        refine congrArg List.length (List.filter_congr ?_)
        intro url _
        exact classify_eq_patternSkipped qp fp eqf url
  · by_cases hu : u = ""
    · simp [importSitemap, hu] at h
    · cases ho : originOf u with
      | none => simp [importSitemap, hu, ho] at h
      | some origin =>
        rw [importSitemap_eval w qp originOf u fp eqf db origin hu ho] at h
        injection h with h1a h1b
        injection h1a with h1r
        subst h1r
        show (processCandidates qp fp eqf origin (resolveRoot w u).urlMap
          (urlMapKeys (resolveRoot w u).urlMap)).2.2 = _
        rw [processCandidates_eq]
        refine congrArg List.length (List.filter_congr ?_)
        intro url _
        exact classify_eq_qualitySkipped qp fp eqf url
  · intro origin rec hrec
    unfold keepRecords at hrec
    rw [processCandidates_eq] at hrec
    rw [List.mem_map] at hrec
    obtain ⟨cand, hcand, rfl⟩ := hrec
    rw [List.mem_filter] at hcand
    exact of_decide_eq_true hcand.2

/-- Witness for C5: a url set with two `/recipe/` pages (pattern pass, quality
fail — every fetch fails) and one other page (pattern reject). -/
theorem filters_ordered_and_attributed_witness :
    ∃ r db',
      importSitemap wRecipes qpNone origFun (some rootUrl) (some "/recipe/") true dbEmpty
        = (ImportResult.ok r, db') ∧
      classify qpNone (some "/recipe/") true "https://example.com/other"
        = CandStatus.patternSkipped ∧
      qualityInvoked (some "/recipe/") true "https://example.com/other" = false ∧
      classify qpNone (some "/recipe/") true "https://example.com/recipe/x"
        = CandStatus.qualitySkipped ∧
      r.patternSkipped = 1 ∧ r.qualitySkipped = 2 := by
  refine ⟨_, _, rfl, ?_⟩
  have h := filters_ordered_and_attributed wRecipes qpNone origFun rootUrl
    (some "/recipe/") true dbEmpty _ _ rfl
  refine ⟨(h.1 _ (by decide)).1, (h.1 _ (by decide)).2,
    h.2.2.1 _ (by decide) rfl (by decide), ?_, ?_⟩
  · rw [h.2.2.2.1]; decide
  · rw [h.2.2.2.2.1]; decide

/- ### C10: a whitespace-only pattern disables the pattern stage -/

theorem patternRejects_whitespace (p : String) (hws : jsTrim p = "") :
    ∀ url, patternRejects (some p) url = false := by
  intro url
  simp [patternRejects, hws]

theorem classify_whitespace (qp : String → Option PageData) (p : String)
    (hws : jsTrim p = "") (eqf : Bool) (url : String) :
    classify qp (some p) eqf url = classify qp none eqf url := by
  simp only [classify, patternRejects_whitespace p hws url]
  simp [patternRejects]

theorem importSitemap_whitespace_pattern (w : World) (qp : String → Option PageData)
    (originOf : String → Option String) (su : Option String) (eqf : Bool) (db : Db)
    (p : String) (hws : jsTrim p = "") :
    importSitemap w qp originOf su (some p) eqf db
      = importSitemap w qp originOf su none eqf db := by
  have hproc : ∀ (origin : String) (m : List (String × String)) (cands : List String),
      processCandidates qp (some p) eqf origin m cands
        = processCandidates qp none eqf origin m cands := by
    intro origin m cands
    rw [processCandidates_eq, processCandidates_eq]
    simp only [classify_whitespace qp p hws eqf]
  cases su with
  | none => rfl
  | some u =>
    by_cases hu : u = ""
    · simp [importSitemap, hu]
    · cases ho : originOf u with
      | none => simp [importSitemap, hu, ho]
      | some origin =>
        rw [importSitemap_eval w qp originOf u (some p) eqf db origin hu ho,
          importSitemap_eval w qp originOf u none eqf db origin hu ho]
        simp only [keepRecords, hproc]

/-- **C10.** A `filterPattern` that is non-empty but all whitespace fails the
`filterPattern.trim() !== ''` guard, so the pattern stage is disabled
entirely: no candidate is ever pattern-rejected, and the whole import behaves
exactly as if no pattern filter had been supplied. -/
theorem whitespace_pattern_disables_filter (p : String) (hne : p ≠ "")
    (hws : jsTrim p = "") (w : World) (qp : String → Option PageData)
    (originOf : String → Option String) (su : Option String) (eqf : Bool) (db : Db) :
    (∀ url, patternRejects (some p) url = false) ∧
      importSitemap w qp originOf su (some p) eqf db
        = importSitemap w qp originOf su none eqf db :=
  ⟨patternRejects_whitespace p hws,
    importSitemap_whitespace_pattern w qp originOf su eqf db p hws⟩

/-- Witness for C10 with the all-whitespace pattern consisting of one space. -/
theorem whitespace_pattern_disables_filter_witness :
    patternRejects (some " ") "https://example.com/a" = false ∧
      importSitemap wTwo qpNone origFun (some rootUrl) (some " ") false dbEmpty
        = importSitemap wTwo qpNone origFun (some rootUrl) none false dbEmpty :=
  ⟨(whitespace_pattern_disables_filter " " (by decide) (by decide) wTwo qpNone origFun
      (some rootUrl) false dbEmpty).1 "https://example.com/a",
    (whitespace_pattern_disables_filter " " (by decide) (by decide) wTwo qpNone origFun
      (some rootUrl) false dbEmpty).2⟩

/- ### C6: the quality scanner -/

/-- **C6.** `assess` passes iff both the rating and the review count parse
(neither is `NaN`) and `rating ≥ 4.0` and `reviews ≥ 50`; a fetch failure
returns the zero-sentinel non-passing result (and a parse failure carries the
`NaN` sentinels), never an exception — the embedding is a total function and
the boolean `checkUrlQuality` of the current backend agrees with the
record-returning variant's `valid` field. -/
theorem quality_assess_spec (qp : String → Option PageData) (url : String) :
    ((checkUrlQualityRated qp url).valid = true ↔
      ∃ r n, (checkUrlQualityRated qp url).rating = some r ∧
        (checkUrlQualityRated qp url).reviews = some n ∧ (4 : ℚ) ≤ r ∧ 50 ≤ n) ∧
    (qp url = none → checkUrlQualityRated qp url = ⟨false, some 0, some 0⟩) ∧
    checkUrlQuality qp url = (checkUrlQualityRated qp url).valid := by
  cases hq : qp url with
  | none =>
    refine ⟨?_, fun _ => by simp [checkUrlQualityRated, hq],
      by simp [checkUrlQuality, checkUrlQualityRated, hq]⟩
    simp only [checkUrlQualityRated, hq]
    constructor
    · intro hfalse; cases hfalse
    · rintro ⟨r, n, hr, hn, h4, h50⟩
      obtain rfl : (0 : ℚ) = r := by injection hr
      norm_num at h4
  | some page =>
    simp only [checkUrlQualityRated, checkUrlQuality, hq]
    cases hr : jsParseFloat (jsTrim page.ratingText) with
    | none =>
      cases hn : jsParseIntDigits ((jsTrim page.reviewText).toList.filter Char.isDigit) with
      | none =>
        refine ⟨?_, ?_, ?_⟩
        · constructor
          · intro hfalse; cases hfalse
          · rintro ⟨r, n, hr', hn', h4, h50⟩
            cases hr'
        · intro hcon
          simp at hcon
        · trivial
      | some n0 =>
        refine ⟨?_, ?_, ?_⟩
        · constructor
          · intro hfalse; cases hfalse
          · rintro ⟨r, n, hr', hn', h4, h50⟩
            cases hr'
        · intro hcon
          simp at hcon
        · trivial
    | some r0 =>
      cases hn : jsParseIntDigits ((jsTrim page.reviewText).toList.filter Char.isDigit) with
      | none =>
        refine ⟨?_, ?_, ?_⟩
        · constructor
          · intro hfalse; cases hfalse
          · rintro ⟨r, n, hr', hn', h4, h50⟩
            cases hn'
        · intro hcon
          simp at hcon
        · trivial
      | some n0 =>
        refine ⟨?_, ?_, ?_⟩
        · constructor
          · intro hv
            rw [Bool.and_eq_true, decide_eq_true_eq, decide_eq_true_eq] at hv
            exact ⟨r0, n0, rfl, rfl, hv.1, hv.2⟩
          · rintro ⟨r, n, hr', hn', h4, h50⟩
            obtain rfl : r0 = r := by injection hr'
            obtain rfl : n0 = n := by injection hn'
            rw [Bool.and_eq_true, decide_eq_true_eq, decide_eq_true_eq]
            exact ⟨h4, h50⟩
        · intro hcon
          simp at hcon
        · trivial

/-- Witness for C6 at a URL whose fetch fails: the zero-sentinel non-passing
result. -/
theorem quality_assess_spec_witness :
    checkUrlQualityRated qpNone "https://example.com/recipe/x"
      = ⟨false, some 0, some 0⟩ :=
  (quality_assess_spec qpNone "https://example.com/recipe/x").2.1 rfl

/- ### C7: backup/restore round-trip -/

theorem insertManyBy_foldl_eq {α : Type _} (key : α → String) :
    ∀ (l db : List α) (m : Nat),
      l.foldl (insStep key) (db, m)
        = ((insertManyBy key db l).1, m + (insertManyBy key db l).2) := by
  intro l
  induction l with
  | nil => intro db m; simp [insertManyBy]
  | cons a rest ih =>
    intro db m
    rw [List.foldl_cons]
    have hstep : insStep key (db, m) a
        = if (db.map key).contains (key a) then (db, m) else (db ++ [a], m + 1) := rfl
    cases hc : (db.map key).contains (key a)
    · rw [hstep, hc]
      simp only [Bool.false_eq_true, if_false]
      rw [ih (db ++ [a]) (m + 1)]
      simp only [insertManyBy, hc, Bool.false_eq_true, if_false]
      rw [Prod.mk.injEq]
      exact ⟨rfl, by omega⟩
    · rw [hstep, hc]
      simp only [if_true]
      rw [ih db m]
      simp only [insertManyBy, hc, if_true]

theorem chunkInsertBy_eq {α : Type _} (key : α → String) (n : Nat) (hn : n ≠ 0)
    (l db : List α) : chunkInsertBy key n db l = insertManyBy key db l := by
  unfold chunkInsertBy
  have hlam : (fun (acc : List α × Nat) (batch : List α) =>
        let r := insertManyBy key acc.1 batch
        (r.1, acc.2 + r.2))
      = fun acc batch => batch.foldl (insStep key) acc := by
    funext acc batch
    rw [insertManyBy_foldl_eq key batch acc.1 acc.2]
  rw [hlam, foldl_chunksOf n hn (insStep key), insertManyBy_foldl_eq key l db 0]
  simp

/-- **C7.** Restoring the stream produced by the backup endpoint, with
`clearFirst = false` into an empty store, reproduces the source corpus
exactly — the same records (hence the same sets of `url` values) in both
collections — and reports the source record counts; the hypotheses are the
store's unique-`url` index on each collection. -/
theorem backup_round_trip (db : Db)
    (hu : (db.urls.map (fun r => r.url)).Nodup)
    (hs : (db.sitemaps.map (fun r => r.url)).Nodup) :
    importBackup (exportBackup db) false (Db.mk [] [])
      = (db, db.sitemaps.length, db.urls.length) := by
  simp only [importBackup, exportBackup, Bool.false_eq_true, if_false]
  rw [chunkInsertBy_eq _ 500 (by decide), chunkInsertBy_eq _ 10000 (by decide)]
  rw [insertManyBy_fresh _ db.sitemaps [] hs (by intro r hr; simp),
    insertManyBy_fresh _ db.urls [] hu (by intro r hr; simp)]
  simp

/-- Witness for C7 at a concrete two-URL, one-sitemap corpus. -/
theorem backup_round_trip_witness :
    importBackup (exportBackup c7db) false (Db.mk [] []) = (c7db, 1, 2) :=
  backup_round_trip c7db (by decide) (by decide)

/- ### C8: the search filter is an unescaped case-insensitive regex -/

theorem rxMatchHere_no_dot (p : List Char) (hnd : ('.' : Char) ∉ p) :
    ∀ t, rxMatchHere p t = (p.map lowerChar).isPrefixOf (t.map lowerChar) := by
  induction p with
  | nil => intro t; cases t <;> simp [rxMatchHere, List.isPrefixOf]
  | cons pc ps ih =>
    intro t
    have hpc : pc ≠ '.' := fun h => hnd (h ▸ List.mem_cons_self _ _)
    have hnd' : ('.' : Char) ∉ ps := fun h => hnd (List.mem_cons_of_mem _ h)
    cases t with
    | nil => simp [rxMatchHere, List.isPrefixOf]
    | cons tc ts =>
      simp only [rxMatchHere, List.map_cons, List.isPrefixOf]
      rw [ih hnd' ts]
      by_cases h : lowerChar pc = lowerChar tc
      · simp [rxCharMatch, hpc, h]
      · simp [rxCharMatch, hpc, h]

theorem rxSearch_no_dot (p : List Char) (hnd : ('.' : Char) ∉ p) :
    ∀ t, rxSearch p t = isInfixB (p.map lowerChar) (t.map lowerChar) := by
  intro t
  induction t with
  | nil =>
    cases p <;> simp [rxSearch, rxMatchHere, isInfixB]
  | cons tc ts ih =>
    simp only [rxSearch, List.map_cons, isInfixB]
    rw [rxMatchHere_no_dot p hnd (tc :: ts), ih]
    simp [List.map_cons]

theorem isInfixB_nil (l : List Char) : isInfixB [] l = true := by
  cases l <;> simp [isInfixB, List.isPrefixOf]

theorem mongoRegex_plain (pat text : String) (hplain : plainPattern pat = true) :
    mongoRegexTest pat text = ciSubstring pat text := by
  have hnd : ('.' : Char) ∉ pat.toList := by
    intro hmem
    simp only [plainPattern] at hplain
    have h1 := List.all_eq_true.mp hplain '.' hmem
    rw [show (regexMetaChars.contains ('.' : Char)) = true from by decide] at h1
    cases h1
  exact rxSearch_no_dot pat.toList hnd text.toList

theorem mem_insertByUrl (r x : UrlRecord) :
    ∀ l : List UrlRecord, (x ∈ insertByUrl r l ↔ x = r ∨ x ∈ l) := by
  intro l
  induction l with
  | nil => simp [insertByUrl]
  | cons b bs ih =>
    simp only [insertByUrl]
    by_cases h : strLe r.url b.url = true
    · simp [h, List.mem_cons]
    · simp only [h, Bool.false_eq_true, if_false, List.mem_cons, ih]
      tauto

theorem mem_sortByUrl (x : UrlRecord) : ∀ l : List UrlRecord, (x ∈ sortByUrl l ↔ x ∈ l) := by
  intro l
  induction l with
  | nil => simp [sortByUrl]
  | cons b bs ih => simp [sortByUrl, mem_insertByUrl, ih]

theorem length_insertByUrl (r : UrlRecord) :
    ∀ l : List UrlRecord, (insertByUrl r l).length = l.length + 1 := by
  intro l
  induction l with
  | nil => simp [insertByUrl]
  | cons b bs ih =>
    simp only [insertByUrl]
    by_cases h : strLe r.url b.url = true
    · simp [h]
    · simp only [h, Bool.false_eq_true, if_false, List.length_cons, ih]

theorem length_sortByUrl : ∀ l : List UrlRecord, (sortByUrl l).length = l.length := by
  intro l
  induction l with
  | nil => rfl
  | cons b bs ih => simp [sortByUrl, length_insertByUrl, ih]

theorem ciSubstring_empty (t : String) : ciSubstring "" t = true :=
  isInfixB_nil _

theorem urlsQueryPred_search (domain ps status : Option String) (search : String)
    (hplain : plainPattern search = true) (r : UrlRecord) :
    urlsQueryPred domain ps status (some search) r
      = (urlsQueryPred domain ps status none r && ciSubstring search r.url) := by
  unfold urlsQueryPred
  by_cases hs : search = ""
  · subst hs
    rw [ciSubstring_empty]
    simp [optStrTest]
  · simp only [optStrTest, if_neg hs]
    rw [mongoRegex_plain search r.url hplain]
    generalize (match domain with
      | none => true
      | some s => if s = "" then true else decide (r.sourceDomain = s)) = A
    generalize (match ps with
      | none => true
      | some s => if s = "" then true else decide (r.parentSitemap = some s)) = B
    generalize (if status = some "pending" then !r.copied
      else if status = some "copied" then r.copied else true) = C
    cases A <;> cases B <;> cases C <;> simp

/-- **C8 counterexample.**  The claim reads the search filter as a
case-insensitive *substring* match for every search string; but the backend
passes the string to Mongo as an unescaped `$regex`, so the search string
`"."` (which is no substring of `"abc"`) still matches the record with URL
`"abc"` — the query returns a record the claimed semantics would exclude. -/
theorem search_regex_counterexample :
    (listUrls c8db none none none (some ".") 1 50).data = [c8rec] ∧
      c8db.urls.filter (fun r => ciSubstring "." r.url) = [] := by
  constructor
  · decide
  · decide

/-- **C8 (amended).**  The `search` parameter is evaluated as an unescaped
case-insensitive regular expression; for search strings free of every regex
metacharacter — and in combination with the other active filters — the list
query returns exactly the records whose URL contains the search string as a
case-insensitive substring (stated for `page = 1` with `limit` covering the
whole store, so pagination does not truncate). -/
theorem search_plain_is_ci_substring (db : Db) (domain parentSitemap status : Option String)
    (search : String) (limit : Nat) (hplain : plainPattern search = true)
    (hlim : db.urls.length ≤ limit) (r : UrlRecord) :
    r ∈ (listUrls db domain parentSitemap status (some search) 1 limit).data ↔
      r ∈ db.urls ∧ urlsQueryPred domain parentSitemap status none r = true ∧
        ciSubstring search r.url = true := by
  unfold listUrls
  simp only [Nat.sub_self, Nat.zero_mul, List.drop_zero]
  have hlen : (sortByUrl (db.urls.filter
      (urlsQueryPred domain parentSitemap status (some search)))).length ≤ limit := by
    rw [length_sortByUrl]
    exact le_trans (List.length_filter_le _ _) hlim
  rw [List.take_of_length_le hlen, mem_sortByUrl, List.mem_filter,
    urlsQueryPred_search domain parentSitemap status search hplain r, Bool.and_eq_true]

/-- Witness for the amended C8: a metacharacter-free search returns the
matching record. -/
theorem search_plain_is_ci_substring_witness :
    (⟨"https://example.com/recipe/x", "https://example.com", none, false⟩ : UrlRecord)
      ∈ (listUrls c8dbW none none none (some "recipe") 1 50).data :=
  (search_plain_is_ci_substring c8dbW none none none "recipe" 50 (by decide) (by decide)
    _).mpr (by decide)

/- ### C9: the quality-status record invariant of the v1 data model -/

theorem buildRecordsV1Aux_mem (domain : String) (fp : Option String) :
    ∀ (urls : List String) (recs : List QRec) (k : Nat) (r : QRec),
      r ∈ (buildRecordsV1Aux domain fp urls (recs, k)).1 →
      r ∈ recs ∨ (r.qualityStatus = QStatus.unchecked ∧ r.rating = none ∧ r.reviews = none) := by
  intro urls
  induction urls with
  | nil => intro recs k r h; exact Or.inl (by simpa [buildRecordsV1Aux] using h)
  | cons u rest ih =>
    intro recs k r h
    cases hp : patternRejects fp u
    · simp only [buildRecordsV1Aux, hp, Bool.false_eq_true, if_false] at h
      rcases ih (recs ++ [⟨u, domain, false, QStatus.unchecked, none, none⟩]) k r h with
        hin | hprop
      · rcases List.mem_append.mp hin with hin | hin
        · exact Or.inl hin
        · refine Or.inr ?_
          rw [List.mem_singleton.mp hin]
          exact ⟨rfl, rfl, rfl⟩
      · exact Or.inr hprop
    · simp only [buildRecordsV1Aux, hp, if_true] at h
      exact ih recs (k + 1) r h

theorem extractStoreV1_inv (domain : String) (fp : Option String) (urls : List String)
    (db : List QRec) (hinv : QInv db) : QInv (extractStoreV1 domain fp urls db).1 := by
  intro r hr
  unfold extractStoreV1 at hr
  rcases insertManyBy_mem _ _ _ r hr with hdb | hnew
  · exact hinv r hdb
  · rcases buildRecordsV1Aux_mem domain fp urls [] 0 r hnew with hin | hprop
    · cases hin
    · intro hst
      exact absurd hprop.1 hst

theorem scanQualityBatch_inv (qp : String → Option PageData) (limit : Nat)
    (db : List QRec) (hinv : QInv db) : QInv (scanQualityBatch qp limit db).1 := by
  unfold scanQualityBatch
  cases hempty : ((db.filter
      (fun r => decide (r.qualityStatus = QStatus.unchecked))).take limit).isEmpty
  · simp only [hempty, Bool.false_eq_true, if_false]
    intro r hr
    rw [List.mem_map] at hr
    obtain ⟨r0, hr0, rfl⟩ := hr
    cases hlook : (((db.filter
        (fun r => decide (r.qualityStatus = QStatus.unchecked))).take limit).map
        (fun r => (r.url, checkUrlQualityRated qp r.url))).lookup r0.url with
    | none =>
      simp only [hlook]
      exact hinv r0 hr0
    | some out =>
      simp only [hlook]
      intro _
      exact ⟨rfl, rfl⟩
  · simp only [hempty, if_true]
    exact hinv

theorem markCopiedV1_quality_unchanged (sel : CopySelector) (db : List QRec) :
    (markCopiedV1 sel db).map (fun r => (r.qualityStatus, r.rating, r.reviews))
      = db.map (fun r => (r.qualityStatus, r.rating, r.reviews)) := by
  cases sel with
  | allPending domain search =>
    unfold markCopiedV1
    rw [List.map_map]
    refine List.map_congr_left ?_
    intro r _
    simp only [Function.comp_apply]
    split
    · rfl
    · rfl
  | byUrls urls =>
    unfold markCopiedV1
    rw [List.map_map]
    refine List.map_congr_left ?_
    intro r _
    simp only [Function.comp_apply]
    split
    · rfl
    · rfl

theorem markCopiedV1_inv (sel : CopySelector) (db : List QRec) (hinv : QInv db) :
    QInv (markCopiedV1 sel db) := by
  cases sel with
  | allPending domain search =>
    intro r hr
    unfold markCopiedV1 at hr
    rw [List.mem_map] at hr
    obtain ⟨r0, hr0, rfl⟩ := hr
    split
    · exact hinv r0 hr0
    · exact hinv r0 hr0
  | byUrls urls =>
    intro r hr
    unfold markCopiedV1 at hr
    rw [List.mem_map] at hr
    obtain ⟨r0, hr0, rfl⟩ := hr
    split
    · exact hinv r0 hr0
    · exact hinv r0 hr0

/-- **C9.** The v1 data model keeps the invariant `qualityStatus ≠ unchecked →
rating and reviews are set`: the extract endpoint creates records as
`unchecked` with both fields absent; the batch scan's bulk update — the only
operation that moves a record to `approved`/`rejected` — writes
`qualityStatus`, `rating` and `reviews` together in one `$set` and preserves
the invariant; `mark-copied` leaves the quality triple of every record
untouched (and so preserves the invariant); and the cleared store satisfies
it vacuously. -/
theorem quality_status_invariant :
    (∀ (domain : String) (fp : Option String) (urls : List String) (r : QRec),
        r ∈ (buildRecordsV1 domain fp urls).1 →
        r.qualityStatus = QStatus.unchecked ∧ r.rating = none ∧ r.reviews = none) ∧
    (∀ (domain : String) (fp : Option String) (urls : List String) (db : List QRec),
        QInv db → QInv (extractStoreV1 domain fp urls db).1) ∧
    (∀ (qp : String → Option PageData) (limit : Nat) (db : List QRec),
        QInv db → QInv (scanQualityBatch qp limit db).1) ∧
    (∀ (sel : CopySelector) (db : List QRec),
        (markCopiedV1 sel db).map (fun r => (r.qualityStatus, r.rating, r.reviews))
          = db.map (fun r => (r.qualityStatus, r.rating, r.reviews)) ∧
        (QInv db → QInv (markCopiedV1 sel db))) ∧
    QInv clearDatabaseV1 := by
  refine ⟨?_, extractStoreV1_inv, scanQualityBatch_inv,
    fun sel db => ⟨markCopiedV1_quality_unchanged sel db, markCopiedV1_inv sel db⟩,
    fun r hr => absurd hr (List.not_mem_nil r)⟩
  intro domain fp urls r hmem
  rcases buildRecordsV1Aux_mem domain fp urls [] 0 r hmem with hin | hprop
  · cases hin
  · exact hprop

/-- Witness for C9: a batch scan over a store with one unchecked and one
approved record, every fetch failing. -/
theorem quality_status_invariant_witness :
    QInv (scanQualityBatch qpNone 2 c9db).1 :=
  quality_status_invariant.2.2.1 qpNone 2 c9db (by unfold QInv; decide)
